import Mathlib

/-!
Verification development for the row-wise stereo disparity estimator in
`StereoAlgorithm.py` (function `createDisparityMap`).

The embedding below translates the compiled (numba `@njit`) semantics of the
source:

* Pixel rows are unsigned 8-bit samples.  The scalar subtraction `z1 - z2`
  in the compiled code is performed in 64-bit unsigned machine arithmetic
  (small unsigned operands are promoted to the unsigned machine width),
  so it wraps modulo 2^64; the square is likewise reduced modulo 2^64
  before the exact division by `variance`.  We model that arithmetic
  exactly (`wsub`, `matchingCost`).
* The `float64` cost matrix is modelled over `ℚ`; all values arising here
  (multiples of `occlusionCost` plus dyadic `k/16` match costs) are exact
  in double precision for realistic inputs.
* `costMatrix` is filled row by row; `cost L R occ i j` is the value of
  cell `(i, j)`, defined by the same boundary and recurrence as the two
  nested loops of the source.  `direction L R occ i j` is the value of
  `directionMatrix[i][j]` (the matrix is created as all ones, and interior
  cells are overwritten by the tag chain testing `min3`, `min1`, `min2`
  in that order; tags: 1 = MATCH, 2 = SKIP_LEFT, 3 = SKIP_RIGHT).
* The backward `while` loop is modelled by `tracebackFuel` (the loop body
  as a step function, with an explicit fuel bound; `none` models
  non-termination / an invalid tag) and `tbFinal` (the final cursor).
* Disparity writes `leftDisparityMap[rowNo][i] = disparity` are recorded
  by `writeRow` at their literal column index.  Note the source writes at
  index `i ∈ 1..N` into a row of width `N`: the write at column `N` is out
  of the row's bounds (numba does not bounds-check).  The model records
  such a write at its literal coordinate, where it is never read back by
  the final scan over columns `0..N-1`; for single-row inputs this matches
  the machine behaviour (the write lands outside the allocated buffer).
* The final rescale `map *= 255.0 / map.max()` followed by `astype(uint8)`
  is `finalizeMap`; when the maximum is `0` the source divides by zero and
  propagates a non-finite value, which the model represents as `none`.
-/

namespace Stereo

/-- The modulus of 64-bit unsigned machine arithmetic. -/
def word : ℕ := 2 ^ 64

/-- Wrapping (modulo `2^64`) unsigned subtraction, as performed by the
compiled code on the promoted pixel samples. -/
def wsub (a b : ℕ) : ℕ := (a + word - b % word) % word

/-- The fixed tunable constant `variance = 16` of the source. -/
def variance : ℚ := 16

/-- `matchingCost = pow((z1 - z2), 2) / variance` of the source, with the
subtraction and the square performed in wrapping 64-bit arithmetic and the
final true division exact. -/
def matchingCost (z1 z2 : ℕ) : ℚ := ((wsub z1 z2 ^ 2 % word : ℕ) : ℚ) / variance

/-- Match cost as the specification words it: `(L[i-1] - R[j-1])^2 / variance`
with mathematical (signed, non-wrapping) subtraction. -/
def specMatchCost (z1 z2 : ℕ) : ℚ := ((z1 : ℚ) - (z2 : ℚ)) ^ 2 / variance

/-- One inner loop (`for j in range(1, columnCount + 1)`) of the cost matrix
fill: given the previous row `prev` of the cost matrix, the match costs
`mc j` against right pixel `j`, and the boundary value `base` of column 0,
produce the next row.  `min (min match skipLeft) skipRight` is the source's
`min(min1, min2, min3)`. -/
def nextRow (occ : ℚ) (mc prev : ℕ → ℚ) (base : ℚ) : ℕ → ℚ
  | 0 => base
  | j + 1 =>
    min (min (prev j + mc j) (prev (j + 1) + occ)) (nextRow occ mc prev base j + occ)

/-- The rows of `costMatrix`: row `0` is the boundary `j * occlusionCost`,
row `i+1` is filled from row `i` using left pixel `L[i]`. -/
def costRow (L R : List ℕ) (occ : ℚ) : ℕ → ℕ → ℚ
  | 0 => fun j => (j : ℚ) * occ
  | i + 1 =>
    nextRow occ (fun j => matchingCost (L.getD i 0) (R.getD j 0)) (costRow L R occ i)
      (((i : ℚ) + 1) * occ)

/-- `cost L R occ i j` is `costMatrix[i][j]` for the row pair `(L, R)`. -/
def cost (L R : List ℕ) (occ : ℚ) (i j : ℕ) : ℚ := costRow L R occ i j

/-- `direction L R occ i j` is `directionMatrix[i][j]`: the matrix is created
filled with ones; each interior cell is assigned by testing `min3` (skip
right), then `min1` (match), then `min2` (skip left) against the computed
minimum.  The final `else` branch (tag `0` here) is the source's
"Error matching minimum" branch, which leaves no tag. -/
def direction (L R : List ℕ) (occ : ℚ) (i j : ℕ) : ℕ :=
  match i, j with
  | 0, _ => 1
  | _ + 1, 0 => 1
  | i + 1, j + 1 =>
    let min1 := cost L R occ i j + matchingCost (L.getD i 0) (R.getD j 0)
    let min2 := cost L R occ i (j + 1) + occ
    let min3 := cost L R occ (i + 1) j + occ
    let minimum := min (min min1 min2) min3
    if minimum = min3 then 3
    else if minimum = min1 then 1
    else if minimum = min2 then 2
    else 0

/-- The direction tag as the specification words it: test `skipRight` first,
then `match`, then `skipLeft`, and record the tag of the first candidate
whose value equals the computed minimum. -/
def specTag (matchV skipLeftV skipRightV : ℚ) : ℕ :=
  let minimum := min (min matchV skipLeftV) skipRightV
  if skipRightV = minimum then 3
  else if matchV = minimum then 1
  else if skipLeftV = minimum then 2
  else 0

/-- The backward traversal `while (i != 0) and (j != 0)` as a fuel-bounded
loop over an arbitrary direction grid `D`.  `some l` is normal termination
with the emitted matched pairs `l` (in emission order); `none` means the
fuel ran out or an invalid tag was met (on an invalid tag the source's loop
body makes no progress, so the loop never terminates). -/
def tracebackFuel (D : ℕ → ℕ → ℕ) : ℕ → ℕ → ℕ → Option (List (ℕ × ℕ))
  | _, 0, _ => some []
  | _, _ + 1, 0 => some []
  | 0, _ + 1, _ + 1 => none
  | f + 1, i + 1, j + 1 =>
    if D (i + 1) (j + 1) = 1 then
      (tracebackFuel D f i j).map (fun l => (i + 1, j + 1) :: l)
    else if D (i + 1) (j + 1) = 2 then tracebackFuel D f i (j + 1)
    else if D (i + 1) (j + 1) = 3 then tracebackFuel D f (i + 1) j
    else none

/-- The cursor `(i, j)` at which the backward traversal stops (given enough
fuel); on an invalid tag it reports the cell where the loop got stuck. -/
def tbFinal (D : ℕ → ℕ → ℕ) : ℕ → ℕ → ℕ → ℕ × ℕ
  | _, 0, j => (0, j)
  | _, i + 1, 0 => (i + 1, 0)
  | 0, i + 1, j + 1 => (i + 1, j + 1)
  | f + 1, i + 1, j + 1 =>
    if D (i + 1) (j + 1) = 1 then tbFinal D f i j
    else if D (i + 1) (j + 1) = 2 then tbFinal D f i (j + 1)
    else if D (i + 1) (j + 1) = 3 then tbFinal D f (i + 1) j
    else (i + 1, j + 1)

/-- The matched pairs emitted for one row pair: the traversal starts at
`(columnCount, columnCount)`; fuel `2 * columnCount` always suffices. -/
def rowPairs (L R : List ℕ) (occ : ℚ) : List (ℕ × ℕ) :=
  (tracebackFuel (direction L R occ) (L.length + L.length) L.length L.length).getD []

/-- `disparity = abs(i - j) * 10 + 128` of the source. -/
def disparity (p : ℕ × ℕ) : ℚ := (((p.1 : ℤ) - (p.2 : ℤ)).natAbs : ℚ) * 10 + 128

/-- An array-cell write: `f` with index `c` set to `v`. -/
def writeAt (f : ℕ → ℚ) (c : ℕ) (v : ℚ) : ℕ → ℚ := fun x => if x = c then v else f x

/-- The writes of one row's traversal into one disparity map, applied in
emission order to the all-zero row; `sel` picks the written index (`i` for
the left map, `j` for the right map). -/
def writeRow (sel : ℕ × ℕ → ℕ) (ps : List (ℕ × ℕ)) : ℕ → ℚ :=
  ps.foldl (fun f p => writeAt f (sel p) (disparity p)) fun _ => 0

/-- The left disparity map before normalization, as a function of
(row, column). -/
def leftMapVal (imgL imgR : List (List ℕ)) (occ : ℚ) : ℕ → ℕ → ℚ :=
  fun r => writeRow Prod.fst (rowPairs (imgL.getD r []) (imgR.getD r []) occ)

/-- The right disparity map before normalization. -/
def rightMapVal (imgL imgR : List (List ℕ)) (occ : ℚ) : ℕ → ℕ → ℚ :=
  fun r => writeRow Prod.snd (rowPairs (imgL.getD r []) (imgR.getD r []) occ)

/-- Maximum of a list of (non-negative) values, as `ndarray.max()` on the
disparity maps (whose entries are all `≥ 0`). -/
def listMax (l : List ℚ) : ℚ := l.foldl max 0

/-- `map.max()` over the `h × w` grid of `f`. -/
def mapMax (f : ℕ → ℕ → ℚ) (h w : ℕ) : ℚ :=
  listMax ((List.range h).map fun r => listMax ((List.range w).map fun c => f r c))

/-- `astype(np.uint8)` on a non-negative in-range value: truncation to an
integer. -/
def ratToByte (q : ℚ) : ℕ := q.floor.toNat

/-- `map *= 255.0 / map.max()` followed by `astype(np.uint8)`.  When the
maximum is `0` the source divides by zero and feeds a non-finite value to
the cast; the model returns `none` for that outcome (there is no special
case in the source producing a defined all-zero map). -/
def finalizeMap (f : ℕ → ℕ → ℚ) (h w : ℕ) : Option (List (List ℕ)) :=
  if mapMax f h w = 0 then none
  else
    some ((List.range h).map fun r =>
      (List.range w).map fun c => ratToByte (f r c * (255 / mapMax f h w)))

/-- The whole of `createDisparityMap`: both finalized disparity maps, with
the shape taken (as in the source) from the left image. -/
def createDisparityMap (imgL imgR : List (List ℕ)) (occ : ℚ) :
    Option (List (List ℕ)) × Option (List (List ℕ)) :=
  (finalizeMap (leftMapVal imgL imgR occ) imgL.length (imgL.getD 0 []).length,
   finalizeMap (rightMapVal imgL imgR occ) imgL.length (imgL.getD 0 []).length)

/-- One alignment step of the specification's invariant: a match consumes
one left and one right pixel, a skip consumes one pixel of the named side. -/
inductive Step
  | mat : Step
  | skipL : Step
  | skipR : Step
deriving DecidableEq

/-- Total cost of an alignment (read as a sequence of steps, last consumed
pixels first) of the first `i` left pixels against the first `j` right
pixels, with the specification's match cost `(L[a] - R[b])^2 / variance` and
`occlusionCost` per skip; `none` when the steps do not consume exactly the
two prefixes. -/
def alignCost (L R : List ℕ) (occ : ℚ) : List Step → ℕ → ℕ → Option ℚ
  | [], 0, 0 => some 0
  | [], _ + 1, _ => none
  | [], 0, _ + 1 => none
  | .mat :: s, i + 1, j + 1 =>
    (alignCost L R occ s i j).map (· + specMatchCost (L.getD i 0) (R.getD j 0))
  | .mat :: _, 0, _ => none
  | .mat :: _, _ + 1, 0 => none
  | .skipL :: s, i + 1, j => (alignCost L R occ s i j).map (· + occ)
  | .skipL :: _, 0, _ => none
  | .skipR :: s, i, j + 1 => (alignCost L R occ s i j).map (· + occ)
  | .skipR :: _, _, 0 => none

/-- The diagonal `[(k, k), (k-1, k-1), ..., (1, 1)]` of matched pairs. -/
def diagDesc : ℕ → List (ℕ × ℕ)
  | 0 => []
  | k + 1 => (k + 1, k + 1) :: diagDesc k

/-- Exactly one of three candidate values is the strict minimum. -/
def uniqueMin3 (a b c : ℚ) : Prop :=
  (a < b ∧ a < c) ∨ (b < a ∧ b < c) ∨ (c < a ∧ c < b)

instance (a b c : ℚ) : Decidable (uniqueMin3 a b c) := by
  unfold uniqueMin3; infer_instance

/-- At every interior cell of the row pair's cost matrix, the minimum of the
three candidates (match, skip left, skip right) is attained exactly once. -/
def noTieRow (L R : List ℕ) (occ : ℚ) : Prop :=
  ∀ i < L.length, ∀ j < R.length,
    uniqueMin3 (cost L R occ i j + matchingCost (L.getD i 0) (R.getD j 0))
      (cost L R occ i (j + 1) + occ) (cost L R occ (i + 1) j + occ)

instance (L R : List ℕ) (occ : ℚ) : Decidable (noTieRow L R occ) := by
  unfold noTieRow; infer_instance

/-- The mirror of a direction tag under swapping the two input rows:
MATCH stays MATCH, the two skip directions exchange roles. -/
def mirrorTag : ℕ → ℕ
  | 1 => 1
  | 2 => 3
  | 3 => 2
  | t => t

/-! ### Basic facts about the cost recurrence -/

theorem cost_zero_right (L R : List ℕ) (occ : ℚ) (j : ℕ) : cost L R occ 0 j = j * occ := rfl

theorem cost_zero_left (L R : List ℕ) (occ : ℚ) (i : ℕ) : cost L R occ i 0 = i * occ := by
  cases i with
  | zero => rfl
  | succ n =>
    show ((n : ℚ) + 1) * occ = ((n + 1 : ℕ) : ℚ) * occ
    push_cast
    ring

theorem cost_succ (L R : List ℕ) (occ : ℚ) (i j : ℕ) :
    cost L R occ (i + 1) (j + 1) =
      min (min (cost L R occ i j + matchingCost (L.getD i 0) (R.getD j 0))
          (cost L R occ i (j + 1) + occ))
        (cost L R occ (i + 1) j + occ) := rfl

theorem word_pos : 0 < word := by norm_num [word]

theorem wsub_self (v : ℕ) : wsub v v = 0 := by
  have h := Nat.mod_add_div v word
  have : v + word - v % word = word + word * (v / word) := by omega
  simp [wsub, this, Nat.add_mul_mod_self_left]

theorem matchingCost_self (v : ℕ) : matchingCost v v = 0 := by
  simp [matchingCost, wsub_self, Nat.zero_mod, word_pos]

/-- For genuine 8-bit samples the wrapped 64-bit computation recovers the
exact square of the signed difference: the compiled match cost agrees with
the specification's formula. -/
theorem matchingCost_eq_spec {z1 z2 : ℕ} (h1 : z1 < 256) (h2 : z2 < 256) :
    matchingCost z1 z2 = specMatchCost z1 z2 := by
  have hw : (256 : ℕ) < word := by norm_num [word]
  rcases le_or_lt z2 z1 with h | h
  · -- no wrap on the subtraction
    have hm : z2 % word = z2 := Nat.mod_eq_of_lt (by omega)
    have he : z1 + word - z2 % word = (z1 - z2) + word := by omega
    have hd : z1 - z2 < word := by omega
    have hmod : ((z1 - z2) + word) % word = z1 - z2 := by
      simp [Nat.add_mod_right, Nat.mod_eq_of_lt hd]
    have hsq : (z1 - z2) ^ 2 < word := by
      calc (z1 - z2) ^ 2 < 256 ^ 2 := by
            have : z1 - z2 < 256 := by omega
            exact Nat.pow_lt_pow_left this (by norm_num)
        _ < word := by norm_num [word]
    rw [matchingCost, specMatchCost, wsub, he, hmod, Nat.mod_eq_of_lt hsq]
    rw [Nat.cast_pow, Nat.cast_sub h]
  · -- the subtraction wraps: `wsub z1 z2 = word - (z2 - z1)`, and squaring
    -- modulo `word` recovers `(z2 - z1)^2`
    set d := z2 - z1 with hd
    have hdpos : 0 < d := by omega
    have hd256 : d < 256 := by omega
    have hm : z2 % word = z2 := Nat.mod_eq_of_lt (by omega)
    have he : z1 + word - z2 % word = word - d := by omega
    have hlt : word - d < word := by omega
    have h2d : 2 * d ≤ word := by
      have : (2 * 256 : ℕ) ≤ word := by norm_num [word]
      omega
    have hdw : d ≤ word := by omega
    have hsq : d ^ 2 < word := by
      calc d ^ 2 < 256 ^ 2 := Nat.pow_lt_pow_left hd256 (by norm_num)
        _ < word := by norm_num [word]
    have key : (word - d) ^ 2 = d ^ 2 + (word - 2 * d) * word := by
      zify [hdw, h2d]
      ring
    rw [matchingCost, specMatchCost, wsub, he, Nat.mod_eq_of_lt hlt, key,
      Nat.add_mul_mod_self_right, Nat.mod_eq_of_lt hsq]
    have hc : ((d : ℚ)) = (z2 : ℚ) - z1 := by
      rw [hd]
      push_cast [Nat.cast_sub (le_of_lt h)]
      ring
    rw [Nat.cast_pow, hc]
    ring_nf

theorem matchingCost_comm {z1 z2 : ℕ} (h1 : z1 < 256) (h2 : z2 < 256) :
    matchingCost z1 z2 = matchingCost z2 z1 := by
  rw [matchingCost_eq_spec h1 h2, matchingCost_eq_spec h2 h1, specMatchCost, specMatchCost]
  ring_nf

theorem specMatchCost_nonneg (z1 z2 : ℕ) : 0 ≤ specMatchCost z1 z2 := by
  unfold specMatchCost variance
  positivity

theorem matchingCost_nonneg (z1 z2 : ℕ) : 0 ≤ matchingCost z1 z2 :=
  div_nonneg (Nat.cast_nonneg _) (by norm_num [variance])

theorem direction_succ (L R : List ℕ) (occ : ℚ) (i j : ℕ) :
    direction L R occ (i + 1) (j + 1) =
      (if min (min (cost L R occ i j + matchingCost (L.getD i 0) (R.getD j 0))
            (cost L R occ i (j + 1) + occ)) (cost L R occ (i + 1) j + occ) =
          cost L R occ (i + 1) j + occ then 3
        else if min (min (cost L R occ i j + matchingCost (L.getD i 0) (R.getD j 0))
            (cost L R occ i (j + 1) + occ)) (cost L R occ (i + 1) j + occ) =
          cost L R occ i j + matchingCost (L.getD i 0) (R.getD j 0) then 1
        else if min (min (cost L R occ i j + matchingCost (L.getD i 0) (R.getD j 0))
            (cost L R occ i (j + 1) + occ)) (cost L R occ (i + 1) j + occ) =
          cost L R occ i (j + 1) + occ then 2
        else 0) := rfl

theorem min3_choice (a b c : ℚ) :
    min (min a b) c = a ∨ min (min a b) c = b ∨ min (min a b) c = c := by
  rcases min_cases (min a b) c with ⟨h, _⟩ | ⟨h, _⟩
  · rcases min_cases a b with ⟨h2, _⟩ | ⟨h2, _⟩
    · exact Or.inl (h.trans h2)
    · exact Or.inr (Or.inl (h.trans h2))
  · exact Or.inr (Or.inr h)

/-- C8: at every interior cell the computed minimum equals at least one of
the three candidates (match, skip left, skip right), so the if-chain always
records a tag in {1, 2, 3} = {MATCH, SKIP_LEFT, SKIP_RIGHT} and the
source's "Error matching minimum" branch is unreachable. -/
theorem C8_min_always_matches_a_branch (L R : List ℕ) (occ : ℚ) (i j : ℕ) :
    (min (min (cost L R occ i j + matchingCost (L.getD i 0) (R.getD j 0))
          (cost L R occ i (j + 1) + occ)) (cost L R occ (i + 1) j + occ) =
        cost L R occ i j + matchingCost (L.getD i 0) (R.getD j 0) ∨
      min (min (cost L R occ i j + matchingCost (L.getD i 0) (R.getD j 0))
          (cost L R occ i (j + 1) + occ)) (cost L R occ (i + 1) j + occ) =
        cost L R occ i (j + 1) + occ ∨
      min (min (cost L R occ i j + matchingCost (L.getD i 0) (R.getD j 0))
          (cost L R occ i (j + 1) + occ)) (cost L R occ (i + 1) j + occ) =
        cost L R occ (i + 1) j + occ) ∧
    (direction L R occ (i + 1) (j + 1) = 1 ∨ direction L R occ (i + 1) (j + 1) = 2 ∨
      direction L R occ (i + 1) (j + 1) = 3) := by
  refine ⟨min3_choice _ _ _, ?_⟩
  rw [direction_succ]
  split_ifs with h3 h1 h2
  · exact Or.inr (Or.inr rfl)
  · exact Or.inl rfl
  · exact Or.inr (Or.inl rfl)
  · rcases min3_choice (cost L R occ i j + matchingCost (L.getD i 0) (R.getD j 0))
      (cost L R occ i (j + 1) + occ) (cost L R occ (i + 1) j + occ) with h | h | h
    · exact absurd h h1
    · exact absurd h h2
    · exact absurd h h3

/-- C3: the tag recorded at an interior cell is exactly the one obtained by
testing skip-right first, then match, then skip-left, and taking the first
candidate equal to the computed minimum (so exact ties are resolved with
priority SKIP_RIGHT over MATCH over SKIP_LEFT). -/
theorem C3_tag_priority_refines_spec (L R : List ℕ) (occ : ℚ) (i j : ℕ) :
    direction L R occ (i + 1) (j + 1) =
      specTag (cost L R occ i j + matchingCost (L.getD i 0) (R.getD j 0))
        (cost L R occ i (j + 1) + occ) (cost L R occ (i + 1) j + occ) := by
  simp only [direction_succ, specTag]
  set A := cost L R occ i j + matchingCost (L.getD i 0) (R.getD j 0) with hA
  set B := cost L R occ i (j + 1) + occ with hB
  set Cv := cost L R occ (i + 1) j + occ with hC
  by_cases h3 : min (min A B) Cv = Cv
  · rw [if_pos h3, if_pos h3.symm]
  · have h3' : ¬(Cv = min (min A B) Cv) := fun h => h3 h.symm
    rw [if_neg h3, if_neg h3']
    by_cases h1 : min (min A B) Cv = A
    · rw [if_pos h1, if_pos h1.symm]
    · have h1' : ¬(A = min (min A B) Cv) := fun h => h1 h.symm
      rw [if_neg h1, if_neg h1']
      by_cases h2 : min (min A B) Cv = B
      · rw [if_pos h2, if_pos h2.symm]
      · have h2' : ¬(B = min (min A B) Cv) := fun h => h2 h.symm
        rw [if_neg h2, if_neg h2']

/-- C5: on the single row L = [10, 10], R = [10, 50] with occlusionCost 5
and variance 16, the wrapped unsigned computation yields match costs
exactly 0 for (10, 10) and exactly 100 for (10, 50); consequently
`C[1][1] = 0` with tag MATCH, and `C[2][2] = 10` with tag SKIP_RIGHT,
the skip-left and skip-right candidates at (2, 2) both being 10. -/
theorem C5_minimal_example_exact_values :
    matchingCost 10 50 = 100 ∧ matchingCost 10 10 = 0 ∧
    cost [10, 10] [10, 50] 5 1 1 = 0 ∧ direction [10, 10] [10, 50] 5 1 1 = 1 ∧
    cost [10, 10] [10, 50] 5 2 2 = 10 ∧ direction [10, 10] [10, 50] 5 2 2 = 3 ∧
    cost [10, 10] [10, 50] 5 1 2 + 5 = 10 ∧ cost [10, 10] [10, 50] 5 2 1 + 5 = 10 := by
  refine ⟨?_, ?_, ?_, ?_, ?_, ?_, ?_, ?_⟩ <;>
    norm_num [direction, cost, costRow, nextRow, matchingCost, wsub, word, variance]

/-! ### Monotonicity of the cost matrix in the occlusion cost -/

theorem cost_mono_occ (L R : List ℕ) {c1 c2 : ℚ} (h : c1 ≤ c2) :
    ∀ i j, cost L R c1 i j ≤ cost L R c2 i j := by
  intro i
  induction i with
  | zero =>
    intro j
    rw [cost_zero_right, cost_zero_right]
    exact mul_le_mul_of_nonneg_left h (Nat.cast_nonneg j)
  | succ i ih =>
    intro j
    induction j with
    | zero =>
      rw [cost_zero_left, cost_zero_left]
      exact mul_le_mul_of_nonneg_left h (Nat.cast_nonneg (i + 1))
    | succ j ihj =>
      rw [cost_succ, cost_succ]
      exact min_le_min
        (min_le_min (add_le_add (ih j) le_rfl) (add_le_add (ih (j + 1)) h))
        (add_le_add ihj h)

/-- C7: for a fixed row pair, raising the occlusion cost never lowers the
total path cost `C[N][N]` (N the row width). -/
theorem C7_cost_monotone_in_occlusion (L R : List ℕ) (c1 c2 : ℚ) (hpos : 0 < c1)
    (h : c1 ≤ c2) :
    cost L R c1 L.length L.length ≤ cost L R c2 L.length L.length :=
  cost_mono_occ L R h L.length L.length

theorem C7_witness :
    (0 : ℚ) < 2 ∧ (2 : ℚ) ≤ 3 ∧
      cost [10, 10] [10, 50] 2 [10, 10].length [10, 10].length ≤
        cost [10, 10] [10, 50] 3 [10, 10].length [10, 10].length :=
  ⟨by norm_num, by norm_num,
    C7_cost_monotone_in_occlusion [10, 10] [10, 50] 2 3 (by norm_num) (by norm_num)⟩

/-! ### Backward traversal: termination and traceback validity -/

theorem traceback_spec (D : ℕ → ℕ → ℕ) (N : ℕ)
    (hD : ∀ a b, 1 ≤ a → a ≤ N → 1 ≤ b → b ≤ N → D a b = 1 ∨ D a b = 2 ∨ D a b = 3) :
    ∀ fuel i j, i + j ≤ fuel → i ≤ N → j ≤ N →
      ∃ l, tracebackFuel D fuel i j = some l ∧
        List.Pairwise (fun p q => q.1 < p.1 ∧ q.2 < p.2) l ∧
        (∀ p ∈ l, 1 ≤ p.1 ∧ p.1 ≤ i ∧ 1 ≤ p.2 ∧ p.2 ≤ j) ∧
        ((tbFinal D fuel i j).1 = 0 ∨ (tbFinal D fuel i j).2 = 0) := by
  intro fuel
  induction fuel with
  | zero =>
    intro i j hf hi hj
    have hi0 : i = 0 := by omega
    have hj0 : j = 0 := by omega
    subst hi0; subst hj0
    exact ⟨[], rfl, List.Pairwise.nil, by simp, Or.inl rfl⟩
  | succ f ih =>
    intro i j hf hi hj
    match i, j with
    | 0, j => exact ⟨[], rfl, List.Pairwise.nil, by simp, Or.inl rfl⟩
    | i + 1, 0 => exact ⟨[], rfl, List.Pairwise.nil, by simp, Or.inr rfl⟩
    | i + 1, j + 1 =>
      rcases hD (i + 1) (j + 1) (by omega) hi (by omega) hj with h | h | h
      · obtain ⟨l, hl, hpw, hbd, hfin⟩ := ih i j (by omega) (by omega) (by omega)
        refine ⟨(i + 1, j + 1) :: l, ?_, ?_, ?_, ?_⟩
        · simp [tracebackFuel, h, hl]
        · exact List.Pairwise.cons
            (fun q hq => ⟨by have := (hbd q hq).2.1; omega, by have := (hbd q hq).2.2.2; omega⟩)
            hpw
        · intro p hp
          rcases List.mem_cons.mp hp with rfl | hp
          · exact ⟨by omega, le_rfl, by omega, le_rfl⟩
          · have := hbd p hp
            exact ⟨this.1, by omega, this.2.2.1, by omega⟩
        · have : tbFinal D (f + 1) (i + 1) (j + 1) = tbFinal D f i j := by
            simp [tbFinal, h]
          rw [this]
          exact hfin
      · obtain ⟨l, hl, hpw, hbd, hfin⟩ := ih i (j + 1) (by omega) (by omega) hj
        refine ⟨l, ?_, hpw, ?_, ?_⟩
        · simp [tracebackFuel, h, hl]
        · intro p hp
          have := hbd p hp
          exact ⟨this.1, by omega, this.2.2.1, this.2.2.2⟩
        · have : tbFinal D (f + 1) (i + 1) (j + 1) = tbFinal D f i (j + 1) := by
            simp [tbFinal, h]
          rw [this]
          exact hfin
      · obtain ⟨l, hl, hpw, hbd, hfin⟩ := ih (i + 1) j (by omega) hi (by omega)
        refine ⟨l, ?_, hpw, ?_, ?_⟩
        · simp [tracebackFuel, h, hl]
        · intro p hp
          have := hbd p hp
          exact ⟨this.1, this.2.1, this.2.2.1, by omega⟩
        · have : tbFinal D (f + 1) (i + 1) (j + 1) = tbFinal D f (i + 1) j := by
            simp [tbFinal, h]
          rw [this]
          exact hfin

/-- C6: over any direction grid whose interior tags lie in
{MATCH, SKIP_LEFT, SKIP_RIGHT}, the backward loop started at (N, N)
terminates (fuel 2N suffices, every step decrementing a cursor), it stops
with i = 0 or j = 0, and the emitted matched pairs are strictly decreasing
in both coordinates and stay within [1, N]². -/
theorem C6_traceback_terminates_strictly_decreasing (D : ℕ → ℕ → ℕ) (N : ℕ)
    (hD : ∀ a b, 1 ≤ a → a ≤ N → 1 ≤ b → b ≤ N → D a b = 1 ∨ D a b = 2 ∨ D a b = 3) :
    ∃ l, tracebackFuel D (N + N) N N = some l ∧
      List.Pairwise (fun p q => q.1 < p.1 ∧ q.2 < p.2) l ∧
      (∀ p ∈ l, 1 ≤ p.1 ∧ p.1 ≤ N ∧ 1 ≤ p.2 ∧ p.2 ≤ N) ∧
      ((tbFinal D (N + N) N N).1 = 0 ∨ (tbFinal D (N + N) N N).2 = 0) :=
  traceback_spec D N hD (N + N) N N (by omega) le_rfl le_rfl

theorem C6_witness :
    ∃ l, tracebackFuel (direction [10, 10] [10, 50] 5) (2 + 2) 2 2 = some l ∧
      List.Pairwise (fun p q => q.1 < p.1 ∧ q.2 < p.2) l ∧
      (∀ p ∈ l, 1 ≤ p.1 ∧ p.1 ≤ 2 ∧ 1 ≤ p.2 ∧ p.2 ≤ 2) ∧
      ((tbFinal (direction [10, 10] [10, 50] 5) (2 + 2) 2 2).1 = 0 ∨
        (tbFinal (direction [10, 10] [10, 50] 5) (2 + 2) 2 2).2 = 0) :=
  C6_traceback_terminates_strictly_decreasing (direction [10, 10] [10, 50] 5) 2
    (by
      intro a b h1 h2 h3 h4
      interval_cases a <;> interval_cases b <;>
        norm_num [direction, cost, costRow, nextRow, matchingCost, wsub, word, variance])

/-! ### The out-of-bounds disparity write (claim C1) -/

/-- C1: on the 1×2 input pair with both rows [7, 7] and occlusionCost 5 the
traversal emits the matched pair (2, 2), whose write goes to column index 2
of a row of width 2 — not a valid column index, contradicting the claimed
bound `i < N`. -/
theorem C1_traceback_write_out_of_bounds :
    rowPairs [7, 7] [7, 7] 5 = [(2, 2), (1, 1)] ∧
      ∃ p, p ∈ rowPairs [7, 7] [7, 7] 5 ∧ ¬(p.1 < [7, 7].length) := by
  have h : rowPairs [7, 7] [7, 7] 5 = [(2, 2), (1, 1)] := by
    norm_num [rowPairs, tracebackFuel, direction, cost, costRow, nextRow, matchingCost,
      wsub, word, variance]
  refine ⟨h, (2, 2), ?_, by norm_num⟩
  rw [h]
  norm_num

/-! ### The cost matrix computes minimal alignment cost (claim C2) -/

theorem getD_lt_256 {L : List ℕ} (hL : ∀ z ∈ L, z < 256) {i : ℕ} (hi : i < L.length) :
    L.getD i 0 < 256 := by
  rw [List.getD_eq_getElem L 0 hi]
  exact hL _ (List.getElem_mem hi)

/-- The match-cost bridge at in-range indices: the compiled wrapped cost of
the two pixels equals the specification's cost. -/
theorem matchingCost_getD_eq_spec {L R : List ℕ} (hL : ∀ z ∈ L, z < 256)
    (hR : ∀ z ∈ R, z < 256) {i j : ℕ} (hi : i < L.length) (hj : j < R.length) :
    matchingCost (L.getD i 0) (R.getD j 0) = specMatchCost (L.getD i 0) (R.getD j 0) :=
  matchingCost_eq_spec (getD_lt_256 hL hi) (getD_lt_256 hR hj)

theorem exists_alignment (L R : List ℕ) (occ : ℚ) (hL : ∀ z ∈ L, z < 256)
    (hR : ∀ z ∈ R, z < 256) :
    ∀ i j, i ≤ L.length → j ≤ R.length →
      ∃ s, alignCost L R occ s i j = some (cost L R occ i j) := by
  intro i
  induction i with
  | zero =>
    intro j
    induction j with
    | zero =>
      intro _ _
      refine ⟨[], ?_⟩
      have : cost L R occ 0 0 = 0 := by rw [cost_zero_right]; push_cast; ring
      rw [this]
      rfl
    | succ j ihj =>
      intro _ hj
      obtain ⟨s, hs⟩ := ihj (by omega) (by omega)
      refine ⟨.skipR :: s, ?_⟩
      have he : cost L R occ 0 (j + 1) = cost L R occ 0 j + occ := by
        rw [cost_zero_right, cost_zero_right]
        push_cast
        ring
      rw [he]
      simp [alignCost, hs]
  | succ i ih =>
    intro j
    induction j with
    | zero =>
      intro hi _
      obtain ⟨s, hs⟩ := ih 0 (by omega) (by omega)
      refine ⟨.skipL :: s, ?_⟩
      have he : cost L R occ (i + 1) 0 = cost L R occ i 0 + occ := by
        rw [cost_zero_left, cost_zero_left]
        push_cast
        ring
      rw [he]
      simp [alignCost, hs]
    | succ j ihj =>
      intro hi hj
      have hmc : matchingCost (L.getD i 0) (R.getD j 0) =
          specMatchCost (L.getD i 0) (R.getD j 0) :=
        matchingCost_getD_eq_spec hL hR (by omega) (by omega)
      rcases min3_choice (cost L R occ i j + matchingCost (L.getD i 0) (R.getD j 0))
          (cost L R occ i (j + 1) + occ) (cost L R occ (i + 1) j + occ) with h | h | h
      · obtain ⟨s, hs⟩ := ih j (by omega) (by omega)
        refine ⟨.mat :: s, ?_⟩
        rw [cost_succ, h, hmc]
        simp [alignCost, hs]
      · obtain ⟨s, hs⟩ := ih (j + 1) (by omega) hj
        refine ⟨.skipL :: s, ?_⟩
        rw [cost_succ, h]
        simp [alignCost, hs]
      · obtain ⟨s, hs⟩ := ihj hi (by omega)
        refine ⟨.skipR :: s, ?_⟩
        rw [cost_succ, h]
        simp [alignCost, hs]

theorem cost_le_alignCost (L R : List ℕ) (occ : ℚ) (hL : ∀ z ∈ L, z < 256)
    (hR : ∀ z ∈ R, z < 256) :
    ∀ s i j q, i ≤ L.length → j ≤ R.length → alignCost L R occ s i j = some q →
      cost L R occ i j ≤ q := by
  intro s
  induction s with
  | nil =>
    intro i j q hi hj h
    match i, j with
    | 0, 0 =>
      have hq : q = 0 := by
        have : (some 0 : Option ℚ) = some q := h
        simpa using this.symm
      have : cost L R occ 0 0 = 0 := by rw [cost_zero_right]; push_cast; ring
      rw [this, hq]
    | i + 1, _ => exact absurd h (by simp [alignCost])
    | 0, j + 1 => exact absurd h (by simp [alignCost])
  | cons st s ih =>
    intro i j q hi hj h
    cases st with
    | mat =>
      match i, j with
      | i + 1, j + 1 =>
        rw [alignCost] at h
        obtain ⟨q', hq', rfl⟩ := Option.map_eq_some'.mp h
        have hmc : matchingCost (L.getD i 0) (R.getD j 0) =
            specMatchCost (L.getD i 0) (R.getD j 0) :=
          matchingCost_getD_eq_spec hL hR (by omega) (by omega)
        calc cost L R occ (i + 1) (j + 1)
            ≤ cost L R occ i j + matchingCost (L.getD i 0) (R.getD j 0) := by
              rw [cost_succ]
              exact le_trans (min_le_left _ _) (min_le_left _ _)
          _ = cost L R occ i j + specMatchCost (L.getD i 0) (R.getD j 0) := by rw [hmc]
          _ ≤ q' + specMatchCost (L.getD i 0) (R.getD j 0) :=
              add_le_add_right (ih i j q' (by omega) (by omega) hq') _
      | 0, _ => exact absurd h (by simp [alignCost])
      | _ + 1, 0 => exact absurd h (by simp [alignCost])
    | skipL =>
      match i, j with
      | i + 1, j =>
        rw [alignCost] at h
        obtain ⟨q', hq', rfl⟩ := Option.map_eq_some'.mp h
        have hle : cost L R occ i j + occ ≤ q' + occ :=
          add_le_add_right (ih i j q' (by omega) hj hq') _
        refine le_trans ?_ hle
        match j with
        | 0 =>
          rw [cost_zero_left, cost_zero_left]
          push_cast
          ring_nf
          exact le_rfl
        | j + 1 =>
          rw [cost_succ]
          exact le_trans (min_le_left _ _) (min_le_right _ _)
      | 0, _ => exact absurd h (by simp [alignCost])
    | skipR =>
      match i, j with
      | i, j + 1 =>
        rw [alignCost] at h
        obtain ⟨q', hq', rfl⟩ := Option.map_eq_some'.mp h
        have hle : cost L R occ i j + occ ≤ q' + occ :=
          add_le_add_right (ih i j q' hi (by omega) hq') _
        refine le_trans ?_ hle
        match i with
        | 0 =>
          rw [cost_zero_right, cost_zero_right]
          push_cast
          ring_nf
          exact le_rfl
        | i + 1 =>
          rw [cost_succ]
          exact min_le_right _ _
      | _, 0 => exact absurd h (by simp [alignCost])

/-- C2: for 8-bit rows of width N and any positive occlusion cost,
`cost[i][j]` is the least total cost over all valid alignments of the first
i left pixels against the first j right pixels, where a match of pixels a, b
costs `(L[a] - R[b])^2 / variance` (the specification's formula) and every
skip costs `occlusionCost`. -/
theorem C2_cost_is_min_alignment (L R : List ℕ) (occ : ℚ) (N : ℕ)
    (hLen : L.length = N) (hRen : R.length = N) (hL : ∀ z ∈ L, z < 256)
    (hR : ∀ z ∈ R, z < 256) (hocc : 0 < occ) (i j : ℕ) (hi : i ≤ N) (hj : j ≤ N) :
    IsLeast {q : ℚ | ∃ s, alignCost L R occ s i j = some q} (cost L R occ i j) := by
  constructor
  · exact exists_alignment L R occ hL hR i j (by omega) (by omega)
  · rintro q ⟨s, hs⟩
    exact cost_le_alignCost L R occ hL hR s i j q (by omega) (by omega) hs

theorem C2_witness :
    IsLeast {q : ℚ | ∃ s, alignCost [10, 10] [10, 50] 5 s 2 2 = some q}
      (cost [10, 10] [10, 50] 5 2 2) :=
  C2_cost_is_min_alignment [10, 10] [10, 50] 5 2 rfl rfl (by decide) (by decide)
    (by norm_num) 2 2 le_rfl le_rfl

/-! ### The degenerate normalization (claim C4) -/

/-- C4: on the 1×1 input pair L = [[0]], R = [[50]] with occlusionCost 5 no
match is ever recorded, both disparity maps have maximum 0 at finalize time,
and the unconditional rescale divides by zero (modelled as `none`) — the
code has no special case producing an all-zero output map. -/
theorem C4_degenerate_normalization_divides_by_zero :
    mapMax (leftMapVal [[0]] [[50]] 5) 1 1 = 0 ∧
      mapMax (rightMapVal [[0]] [[50]] 5) 1 1 = 0 ∧
      createDisparityMap [[0]] [[50]] 5 = (none, none) := by
  refine ⟨?_, ?_, ?_⟩ <;>
    norm_num [createDisparityMap, finalizeMap, mapMax, listMax, leftMapVal, rightMapVal,
      ratToByte, writeRow, writeAt, disparity, rowPairs, tracebackFuel, direction, cost,
      costRow, nextRow, matchingCost, wsub, word, variance, List.range_succ]

/-! ### Identical constant rows (claim C9) -/

theorem disparity_diag (a : ℕ) : disparity (a, a) = 128 := by
  simp [disparity]

theorem ratToByte_zero : ratToByte 0 = 0 := by
  norm_num [ratToByte, Rat.floor_def']

theorem ratToByte_255 : ratToByte 255 = 255 := by
  rw [ratToByte]
  norm_num [Rat.floor_def']
  decide

theorem le_foldlMax (l : List ℚ) : ∀ a, a ≤ l.foldl max a := by
  induction l with
  | nil => intro a; exact le_rfl
  | cons x l ih =>
    intro a
    exact le_trans (le_max_left a x) (ih (max a x))

theorem mem_le_foldlMax (l : List ℚ) {x : ℚ} (hx : x ∈ l) : ∀ a, x ≤ l.foldl max a := by
  induction l with
  | nil => exact absurd hx (List.not_mem_nil x)
  | cons y l ih =>
    intro a
    rcases List.mem_cons.mp hx with rfl | hx'
    · exact le_trans (le_max_right a x) (le_foldlMax l _)
    · exact ih hx' _

theorem foldlMax_le (l : List ℚ) : ∀ {a b : ℚ}, a ≤ b → (∀ x ∈ l, x ≤ b) →
    l.foldl max a ≤ b := by
  induction l with
  | nil => intro a b hab _; exact hab
  | cons x l ih =>
    intro a b hab hl
    exact ih (max_le hab (hl x (List.mem_cons_self x l)))
      fun y hy => hl y (List.mem_cons_of_mem x hy)

theorem listMax_eq_of {l : List ℚ} {b : ℚ} (hb : 0 ≤ b) (hmem : b ∈ l)
    (hle : ∀ x ∈ l, x ≤ b) : listMax l = b :=
  le_antisymm (foldlMax_le l hb hle) (mem_le_foldlMax l hmem 0)

theorem getD_replicate {n v i : ℕ} (hi : i < n) : (List.replicate n v).getD i 0 = v := by
  rw [List.getD_eq_getElem _ 0 (by simpa using hi)]
  simp

/-- For two identical constant rows every in-range match cost is zero and
the cost matrix is `|i - j| * occlusionCost`; `natDist` is the absolute
difference on `ℕ`. -/
theorem cost_const_rows (n v : ℕ) (occ : ℚ) (hocc : 0 < occ) :
    ∀ i j, i ≤ n → j ≤ n →
      cost (List.replicate n v) (List.replicate n v) occ i j =
        ((i - j + (j - i) : ℕ) : ℚ) * occ := by
  intro i
  induction i with
  | zero =>
    intro j _ _
    rw [cost_zero_right]
    norm_num
  | succ i ih =>
    intro j
    induction j with
    | zero =>
      intro hi _
      rw [cost_zero_left]
      norm_num
    | succ j ihj =>
      intro hi hj
      rw [cost_succ, getD_replicate (by omega), getD_replicate (by omega),
        matchingCost_self, add_zero, ih j (by omega) (by omega),
        ih (j + 1) (by omega) hj, ihj hi (by omega)]
      have h1 : min (((i - j + (j - i) : ℕ) : ℚ) * occ)
          (((i - (j + 1) + (j + 1 - i) : ℕ) : ℚ) * occ + occ) =
          ((i - j + (j - i) : ℕ) : ℚ) * occ := by
        apply min_eq_left
        have : ((i - j + (j - i) : ℕ) : ℚ) * occ ≤
            ((i - (j + 1) + (j + 1 - i) + 1 : ℕ) : ℚ) * occ := by
          apply mul_le_mul_of_nonneg_right _ (le_of_lt hocc)
          exact_mod_cast by omega
        calc ((i - j + (j - i) : ℕ) : ℚ) * occ
            ≤ ((i - (j + 1) + (j + 1 - i) + 1 : ℕ) : ℚ) * occ := this
          _ = ((i - (j + 1) + (j + 1 - i) : ℕ) : ℚ) * occ + occ := by
              push_cast
              ring
      have h2 : min (((i - j + (j - i) : ℕ) : ℚ) * occ)
          (((i + 1 - j + (j - (i + 1)) : ℕ) : ℚ) * occ + occ) =
          ((i - j + (j - i) : ℕ) : ℚ) * occ := by
        apply min_eq_left
        have : ((i - j + (j - i) : ℕ) : ℚ) * occ ≤
            ((i + 1 - j + (j - (i + 1)) + 1 : ℕ) : ℚ) * occ := by
          apply mul_le_mul_of_nonneg_right _ (le_of_lt hocc)
          exact_mod_cast by omega
        calc ((i - j + (j - i) : ℕ) : ℚ) * occ
            ≤ ((i + 1 - j + (j - (i + 1)) + 1 : ℕ) : ℚ) * occ := this
          _ = ((i + 1 - j + (j - (i + 1)) : ℕ) : ℚ) * occ + occ := by
              push_cast
              ring
      rw [h1, h2]
      congr 2
      omega

/-- On the diagonal of two identical constant rows the recorded tag is
MATCH. -/
theorem direction_const_diag (n v : ℕ) (occ : ℚ) (hocc : 0 < occ) {k : ℕ} (hk : k < n) :
    direction (List.replicate n v) (List.replicate n v) occ (k + 1) (k + 1) = 1 := by
  rw [direction_succ, getD_replicate hk, matchingCost_self, add_zero,
    cost_const_rows n v occ hocc k k (by omega) (by omega),
    cost_const_rows n v occ hocc k (k + 1) (by omega) (by omega),
    cost_const_rows n v occ hocc (k + 1) k (by omega) (by omega)]
  have e0 : ((k - k + (k - k) : ℕ) : ℚ) = 0 := by norm_num
  have e1 : ((k - (k + 1) + (k + 1 - k) : ℕ) : ℚ) = 1 := by
    have : (k - (k + 1) + (k + 1 - k) : ℕ) = 1 := by omega
    rw [this]
    norm_num
  have e2 : ((k + 1 - k + (k - (k + 1)) : ℕ) : ℚ) = 1 := by
    have : (k + 1 - k + (k - (k + 1)) : ℕ) = 1 := by omega
    rw [this]
    norm_num
  rw [e0, e1, e2, zero_mul, one_mul]
  have hmin : min (min (0 : ℚ) (occ + occ)) (occ + occ) = 0 := by
    have hi : min (0 : ℚ) (occ + occ) = 0 := min_eq_left (by linarith)
    rw [hi, hi]
  rw [hmin]
  rw [if_neg (by intro h; linarith), if_pos rfl]

theorem traceback_const_diag (n v : ℕ) (occ : ℚ) (hocc : 0 < occ) :
    ∀ k, k ≤ n → ∀ f, 2 * k ≤ f →
      tracebackFuel (direction (List.replicate n v) (List.replicate n v) occ) f k k =
        some (diagDesc k) := by
  intro k
  induction k with
  | zero => intro _ f _; cases f <;> rfl
  | succ k ih =>
    intro hk f hf
    match f, hf with
    | f + 1, hf =>
      have hd := direction_const_diag n v occ hocc (show k < n by omega)
      have : tracebackFuel (direction (List.replicate n v) (List.replicate n v) occ)
          (f + 1) (k + 1) (k + 1) =
          (tracebackFuel (direction (List.replicate n v) (List.replicate n v) occ)
            f k k).map (fun l => (k + 1, k + 1) :: l) := by
        simp [tracebackFuel, hd]
      rw [this, ih (by omega) f (by omega)]
      rfl

theorem rowPairs_const (n v : ℕ) (occ : ℚ) (hocc : 0 < occ) :
    rowPairs (List.replicate n v) (List.replicate n v) occ = diagDesc n := by
  rw [rowPairs, List.length_replicate,
    traceback_const_diag n v occ hocc n le_rfl (n + n) (by omega)]
  rfl

theorem diagDesc_eq_coords : ∀ k, ∀ p ∈ diagDesc k, p.1 = p.2 ∧ 1 ≤ p.1 ∧ p.1 ≤ k := by
  intro k
  induction k with
  | zero => intro p hp; exact absurd hp (List.not_mem_nil p)
  | succ k ih =>
    intro p hp
    rcases List.mem_cons.mp hp with rfl | hp'
    · exact ⟨rfl, by omega, le_rfl⟩
    · obtain ⟨h1, h2, h3⟩ := ih p hp'
      exact ⟨h1, h2, by omega⟩

theorem writeRow_diag_aux (sel : ℕ × ℕ → ℕ) (hsel : ∀ a : ℕ, sel (a, a) = a) :
    ∀ (k : ℕ) (f : ℕ → ℚ) (c : ℕ),
      List.foldl (fun g p => writeAt g (sel p) (disparity p)) f (diagDesc k) c =
        if 1 ≤ c ∧ c ≤ k then 128 else f c := by
  intro k
  induction k with
  | zero =>
    intro f c
    simp only [diagDesc, List.foldl_nil]
    rw [if_neg (by omega)]
  | succ k ih =>
    intro f c
    show List.foldl _ (writeAt f (sel (k + 1, k + 1)) (disparity (k + 1, k + 1)))
        (diagDesc k) c = _
    rw [ih, hsel, disparity_diag]
    by_cases h1 : 1 ≤ c ∧ c ≤ k
    · rw [if_pos h1, if_pos (by omega)]
    · rw [if_neg h1, writeAt]
      by_cases h2 : c = k + 1
      · rw [if_pos h2, if_pos (by omega)]
      · rw [if_neg h2, if_neg (by omega)]

theorem writeRow_diag_fst (k c : ℕ) :
    writeRow Prod.fst (diagDesc k) c = if 1 ≤ c ∧ c ≤ k then 128 else 0 :=
  writeRow_diag_aux Prod.fst (fun _ => rfl) k _ c

theorem writeRow_diag_snd (k c : ℕ) :
    writeRow Prod.snd (diagDesc k) c = if 1 ≤ c ∧ c ≤ k then 128 else 0 :=
  writeRow_diag_aux Prod.snd (fun _ => rfl) k _ c

theorem mapMax_single_row (f : ℕ → ℕ → ℚ) (n : ℕ) (hn : 2 ≤ n)
    (hf : ∀ c, f 0 c = if 1 ≤ c ∧ c ≤ n then 128 else 0) : mapMax f 1 n = 128 := by
  have hinner : listMax ((List.range n).map fun c => f 0 c) = 128 := by
    apply listMax_eq_of (by norm_num)
    · refine List.mem_map.mpr ⟨1, List.mem_range.mpr (by omega), ?_⟩
      rw [hf 1, if_pos (by omega)]
    · intro x hx
      obtain ⟨c, _, rfl⟩ := List.mem_map.mp hx
      rw [hf c]
      split_ifs
      · exact le_rfl
      · norm_num
  have : mapMax f 1 n = listMax [listMax ((List.range n).map fun c => f 0 c)] := by
    have hr1 : List.range 1 = [0] := rfl
    simp [mapMax, hr1]
  rw [this, hinner]
  show max 0 (128 : ℚ) = 128
  norm_num

theorem finalize_single_row (f : ℕ → ℕ → ℚ) (n : ℕ) (hn : 2 ≤ n)
    (hf : ∀ c, f 0 c = if 1 ≤ c ∧ c ≤ n then 128 else 0) :
    finalizeMap f 1 n = some [(List.range n).map fun c => if c = 0 then 0 else 255] := by
  rw [finalizeMap, mapMax_single_row f n hn hf, if_neg (by norm_num)]
  congr 1
  have hr1 : List.range 1 = [0] := rfl
  rw [hr1, List.map_singleton]
  congr 1
  apply List.map_congr_left
  intro c hc
  have hcn : c < n := List.mem_range.mp hc
  rw [hf c]
  match c with
  | 0 =>
    rw [if_neg (by omega), if_pos rfl, zero_mul, ratToByte_zero]
  | c + 1 =>
    rw [if_pos (by omega), if_neg (by omega)]
    have : (128 : ℚ) * (255 / 128) = 255 := by norm_num
    rw [this, ratToByte_255]

/-- The whole pipeline on a pair of identical constant single-row images:
each map is 128 at columns 1..N and 0 at column 0 before normalization (the
column-N write falls outside the row), and rescaling by 255/128 yields 255
at columns 1..N-1 and 0 at column 0. -/
theorem createDisparityMap_const (n v : ℕ) (occ : ℚ) (hn : 2 ≤ n) (hocc : 0 < occ) :
    createDisparityMap [List.replicate n v] [List.replicate n v] occ =
      (some [(List.range n).map fun c => if c = 0 then 0 else 255],
       some [(List.range n).map fun c => if c = 0 then 0 else 255]) := by
  have hgetD : ([List.replicate n v] : List (List ℕ)).getD 0 [] = List.replicate n v := rfl
  have hleft : ∀ c, leftMapVal [List.replicate n v] [List.replicate n v] occ 0 c =
      if 1 ≤ c ∧ c ≤ n then 128 else 0 := by
    intro c
    show writeRow Prod.fst
      (rowPairs (([List.replicate n v] : List (List ℕ)).getD 0 [])
        (([List.replicate n v] : List (List ℕ)).getD 0 []) occ) c = _
    rw [hgetD, rowPairs_const n v occ hocc, writeRow_diag_fst]
  have hright : ∀ c, rightMapVal [List.replicate n v] [List.replicate n v] occ 0 c =
      if 1 ≤ c ∧ c ≤ n then 128 else 0 := by
    intro c
    show writeRow Prod.snd
      (rowPairs (([List.replicate n v] : List (List ℕ)).getD 0 [])
        (([List.replicate n v] : List (List ℕ)).getD 0 []) occ) c = _
    rw [hgetD, rowPairs_const n v occ hocc, writeRow_diag_snd]
  show (finalizeMap (leftMapVal [List.replicate n v] [List.replicate n v] occ) 1
      (List.replicate n v).length,
    finalizeMap (rightMapVal [List.replicate n v] [List.replicate n v] occ) 1
      (List.replicate n v).length) = _
  rw [List.length_replicate, finalize_single_row _ n hn hleft,
    finalize_single_row _ n hn hright]

/-- C9 (amended): for two identical constant rows (any width N ≥ 2, any
positive occlusion cost) the traceback path is all-MATCH along the diagonal
with i = j at every emitted pair and every written disparity equal to 128;
but the finalized maps are not all zero: rescaling by the divide-by-max
path sends the written columns 1..N-1 to 255 while column 0 (never
written) stays 0 (the column-N write falls outside the row). -/
theorem C9_amended_constant_rows (n v : ℕ) (occ : ℚ) (hn : 2 ≤ n) (hocc : 0 < occ) :
    rowPairs (List.replicate n v) (List.replicate n v) occ = diagDesc n ∧
      (∀ p ∈ diagDesc n, p.1 = p.2 ∧ disparity p = 128) ∧
      createDisparityMap [List.replicate n v] [List.replicate n v] occ =
        (some [(List.range n).map fun c => if c = 0 then 0 else 255],
         some [(List.range n).map fun c => if c = 0 then 0 else 255]) := by
  refine ⟨rowPairs_const n v occ hocc, ?_, createDisparityMap_const n v occ hn hocc⟩
  intro p hp
  obtain ⟨h1, _, _⟩ := diagDesc_eq_coords n p hp
  refine ⟨h1, ?_⟩
  have hpp : p = (p.1, p.1) := by
    rcases p with ⟨a, b⟩
    simp at h1
    rw [h1]
  rw [hpp, disparity_diag]

theorem C9_witness :
    (2 : ℕ) ≤ 3 ∧ (0 : ℚ) < 5 ∧
      (rowPairs (List.replicate 3 7) (List.replicate 3 7) 5 = diagDesc 3 ∧
        (∀ p ∈ diagDesc 3, p.1 = p.2 ∧ disparity p = 128) ∧
        createDisparityMap [List.replicate 3 7] [List.replicate 3 7] 5 =
          (some [(List.range 3).map fun c => if c = 0 then 0 else 255],
           some [(List.range 3).map fun c => if c = 0 then 0 else 255])) :=
  ⟨by norm_num, by norm_num, C9_amended_constant_rows 3 7 5 (by norm_num) (by norm_num)⟩

/-- C9 (counterexample to the claim as stated): for the identical constant
input rows [7, 7] the finalized maps are [[0, 255]] — neither the all-zero
map the claim asserts, nor a uniform 255 map. -/
theorem C9_counterexample_not_all_zero :
    createDisparityMap [List.replicate 2 7] [List.replicate 2 7] 5 =
      (some [[0, 255]], some [[0, 255]]) ∧
      ([[0, 255]] : List (List ℕ)) ≠ [[0, 0]] ∧
      ([[0, 255]] : List (List ℕ)) ≠ [[255, 255]] := by
  refine ⟨?_, by decide, by decide⟩
  rw [createDisparityMap_const 2 7 5 (by norm_num) (by norm_num)]
  have : (List.range 2).map (fun c => if c = 0 then 0 else 255) = [0, 255] := by decide
  rw [this]

theorem mc_0_0 : matchingCost 0 0 = 0 := by
  norm_num [matchingCost, wsub, word, variance]

theorem mc_0_4 : matchingCost 0 4 = 1 := by
  norm_num [matchingCost, wsub, word, variance]

theorem mc_0_8 : matchingCost 0 8 = 4 := by
  norm_num [matchingCost, wsub, word, variance]

theorem mc_0_12 : matchingCost 0 12 = 9 := by
  norm_num [matchingCost, wsub, word, variance]

theorem mc_4_0 : matchingCost 4 0 = 1 := by
  norm_num [matchingCost, wsub, word, variance]

theorem mc_4_8 : matchingCost 4 8 = 1 := by
  norm_num [matchingCost, wsub, word, variance]

theorem mc_4_12 : matchingCost 4 12 = 4 := by
  norm_num [matchingCost, wsub, word, variance]

theorem mc_8_0 : matchingCost 8 0 = 4 := by
  norm_num [matchingCost, wsub, word, variance]

theorem mc_8_4 : matchingCost 8 4 = 1 := by
  norm_num [matchingCost, wsub, word, variance]

theorem mc_12_0 : matchingCost 12 0 = 9 := by
  norm_num [matchingCost, wsub, word, variance]

theorem mc_12_4 : matchingCost 12 4 = 4 := by
  norm_num [matchingCost, wsub, word, variance]

theorem cA_1_1 : cost [0, 4, 0, 0] [0, 8, 8, 12] 2 1 1 = 0 := by
  have e := cost_succ [0, 4, 0, 0] [0, 8, 8, 12] 2 0 0
  norm_num [cost_zero_left, cost_zero_right, min_def, mc_0_0] at e
  exact e

theorem cA_1_2 : cost [0, 4, 0, 0] [0, 8, 8, 12] 2 1 2 = 2 := by
  have e := cost_succ [0, 4, 0, 0] [0, 8, 8, 12] 2 0 1
  norm_num [cost_zero_left, cost_zero_right, min_def, mc_0_8, cA_1_1] at e
  exact e

theorem cA_1_3 : cost [0, 4, 0, 0] [0, 8, 8, 12] 2 1 3 = 4 := by
  have e := cost_succ [0, 4, 0, 0] [0, 8, 8, 12] 2 0 2
  norm_num [cost_zero_left, cost_zero_right, min_def, mc_0_8, cA_1_2] at e
  exact e

theorem cA_1_4 : cost [0, 4, 0, 0] [0, 8, 8, 12] 2 1 4 = 6 := by
  have e := cost_succ [0, 4, 0, 0] [0, 8, 8, 12] 2 0 3
  norm_num [cost_zero_left, cost_zero_right, min_def, mc_0_12, cA_1_3] at e
  exact e

theorem cA_2_1 : cost [0, 4, 0, 0] [0, 8, 8, 12] 2 2 1 = 2 := by
  have e := cost_succ [0, 4, 0, 0] [0, 8, 8, 12] 2 1 0
  norm_num [cost_zero_left, cost_zero_right, min_def, mc_4_0, cA_1_1] at e
  exact e

theorem cA_2_2 : cost [0, 4, 0, 0] [0, 8, 8, 12] 2 2 2 = 1 := by
  have e := cost_succ [0, 4, 0, 0] [0, 8, 8, 12] 2 1 1
  norm_num [cost_zero_left, cost_zero_right, min_def, mc_4_8, cA_1_1, cA_1_2, cA_2_1] at e
  exact e

theorem cA_2_3 : cost [0, 4, 0, 0] [0, 8, 8, 12] 2 2 3 = 3 := by
  have e := cost_succ [0, 4, 0, 0] [0, 8, 8, 12] 2 1 2
  norm_num [cost_zero_left, cost_zero_right, min_def, mc_4_8, cA_1_2, cA_1_3, cA_2_2] at e
  exact e

theorem cA_2_4 : cost [0, 4, 0, 0] [0, 8, 8, 12] 2 2 4 = 5 := by
  have e := cost_succ [0, 4, 0, 0] [0, 8, 8, 12] 2 1 3
  norm_num [cost_zero_left, cost_zero_right, min_def, mc_4_12, cA_1_3, cA_1_4, cA_2_3] at e
  exact e

theorem cA_3_1 : cost [0, 4, 0, 0] [0, 8, 8, 12] 2 3 1 = 4 := by
  have e := cost_succ [0, 4, 0, 0] [0, 8, 8, 12] 2 2 0
  norm_num [cost_zero_left, cost_zero_right, min_def, mc_0_0, cA_2_1] at e
  exact e

theorem cA_3_2 : cost [0, 4, 0, 0] [0, 8, 8, 12] 2 3 2 = 3 := by
  have e := cost_succ [0, 4, 0, 0] [0, 8, 8, 12] 2 2 1
  norm_num [cost_zero_left, cost_zero_right, min_def, mc_0_8, cA_2_1, cA_2_2, cA_3_1] at e
  exact e

theorem cA_3_3 : cost [0, 4, 0, 0] [0, 8, 8, 12] 2 3 3 = 5 := by
  have e := cost_succ [0, 4, 0, 0] [0, 8, 8, 12] 2 2 2
  norm_num [cost_zero_left, cost_zero_right, min_def, mc_0_8, cA_2_2, cA_2_3, cA_3_2] at e
  exact e

theorem cA_3_4 : cost [0, 4, 0, 0] [0, 8, 8, 12] 2 3 4 = 7 := by
  have e := cost_succ [0, 4, 0, 0] [0, 8, 8, 12] 2 2 3
  norm_num [cost_zero_left, cost_zero_right, min_def, mc_0_12, cA_2_3, cA_2_4, cA_3_3] at e
  exact e

theorem cA_4_1 : cost [0, 4, 0, 0] [0, 8, 8, 12] 2 4 1 = 6 := by
  have e := cost_succ [0, 4, 0, 0] [0, 8, 8, 12] 2 3 0
  norm_num [cost_zero_left, cost_zero_right, min_def, mc_0_0, cA_3_1] at e
  exact e

theorem cA_4_2 : cost [0, 4, 0, 0] [0, 8, 8, 12] 2 4 2 = 5 := by
  have e := cost_succ [0, 4, 0, 0] [0, 8, 8, 12] 2 3 1
  norm_num [cost_zero_left, cost_zero_right, min_def, mc_0_8, cA_3_1, cA_3_2, cA_4_1] at e
  exact e

theorem cA_4_3 : cost [0, 4, 0, 0] [0, 8, 8, 12] 2 4 3 = 7 := by
  have e := cost_succ [0, 4, 0, 0] [0, 8, 8, 12] 2 3 2
  norm_num [cost_zero_left, cost_zero_right, min_def, mc_0_8, cA_3_2, cA_3_3, cA_4_2] at e
  exact e

theorem cA_4_4 : cost [0, 4, 0, 0] [0, 8, 8, 12] 2 4 4 = 9 := by
  have e := cost_succ [0, 4, 0, 0] [0, 8, 8, 12] 2 3 3
  norm_num [cost_zero_left, cost_zero_right, min_def, mc_0_12, cA_3_3, cA_3_4, cA_4_3] at e
  exact e

theorem dA_1_1 : direction [0, 4, 0, 0] [0, 8, 8, 12] 2 1 1 = 1 := by
  have e := direction_succ [0, 4, 0, 0] [0, 8, 8, 12] 2 0 0
  norm_num [cost_zero_left, cost_zero_right, min_def, mc_0_0] at e
  exact e

theorem dA_1_2 : direction [0, 4, 0, 0] [0, 8, 8, 12] 2 1 2 = 3 := by
  have e := direction_succ [0, 4, 0, 0] [0, 8, 8, 12] 2 0 1
  norm_num [cost_zero_left, cost_zero_right, min_def, mc_0_8, cA_1_1] at e
  exact e

theorem dA_1_3 : direction [0, 4, 0, 0] [0, 8, 8, 12] 2 1 3 = 3 := by
  have e := direction_succ [0, 4, 0, 0] [0, 8, 8, 12] 2 0 2
  norm_num [cost_zero_left, cost_zero_right, min_def, mc_0_8, cA_1_2] at e
  exact e

theorem dA_1_4 : direction [0, 4, 0, 0] [0, 8, 8, 12] 2 1 4 = 3 := by
  have e := direction_succ [0, 4, 0, 0] [0, 8, 8, 12] 2 0 3
  norm_num [cost_zero_left, cost_zero_right, min_def, mc_0_12, cA_1_3] at e
  exact e

theorem dA_2_1 : direction [0, 4, 0, 0] [0, 8, 8, 12] 2 2 1 = 2 := by
  have e := direction_succ [0, 4, 0, 0] [0, 8, 8, 12] 2 1 0
  norm_num [cost_zero_left, cost_zero_right, min_def, mc_4_0, cA_1_1] at e
  exact e

theorem dA_2_2 : direction [0, 4, 0, 0] [0, 8, 8, 12] 2 2 2 = 1 := by
  have e := direction_succ [0, 4, 0, 0] [0, 8, 8, 12] 2 1 1
  norm_num [cost_zero_left, cost_zero_right, min_def, mc_4_8, cA_1_1, cA_1_2, cA_2_1] at e
  exact e

theorem dA_2_3 : direction [0, 4, 0, 0] [0, 8, 8, 12] 2 2 3 = 3 := by
  have e := direction_succ [0, 4, 0, 0] [0, 8, 8, 12] 2 1 2
  norm_num [cost_zero_left, cost_zero_right, min_def, mc_4_8, cA_1_2, cA_1_3, cA_2_2] at e
  exact e

theorem dA_2_4 : direction [0, 4, 0, 0] [0, 8, 8, 12] 2 2 4 = 3 := by
  have e := direction_succ [0, 4, 0, 0] [0, 8, 8, 12] 2 1 3
  norm_num [cost_zero_left, cost_zero_right, min_def, mc_4_12, cA_1_3, cA_1_4, cA_2_3] at e
  exact e

theorem dA_3_1 : direction [0, 4, 0, 0] [0, 8, 8, 12] 2 3 1 = 1 := by
  have e := direction_succ [0, 4, 0, 0] [0, 8, 8, 12] 2 2 0
  norm_num [cost_zero_left, cost_zero_right, min_def, mc_0_0, cA_2_1] at e
  exact e

theorem dA_3_2 : direction [0, 4, 0, 0] [0, 8, 8, 12] 2 3 2 = 2 := by
  have e := direction_succ [0, 4, 0, 0] [0, 8, 8, 12] 2 2 1
  norm_num [cost_zero_left, cost_zero_right, min_def, mc_0_8, cA_2_1, cA_2_2, cA_3_1] at e
  exact e

theorem dA_3_3 : direction [0, 4, 0, 0] [0, 8, 8, 12] 2 3 3 = 3 := by
  have e := direction_succ [0, 4, 0, 0] [0, 8, 8, 12] 2 2 2
  norm_num [cost_zero_left, cost_zero_right, min_def, mc_0_8, cA_2_2, cA_2_3, cA_3_2] at e
  exact e

theorem dA_3_4 : direction [0, 4, 0, 0] [0, 8, 8, 12] 2 3 4 = 3 := by
  have e := direction_succ [0, 4, 0, 0] [0, 8, 8, 12] 2 2 3
  norm_num [cost_zero_left, cost_zero_right, min_def, mc_0_12, cA_2_3, cA_2_4, cA_3_3] at e
  exact e

theorem dA_4_1 : direction [0, 4, 0, 0] [0, 8, 8, 12] 2 4 1 = 1 := by
  have e := direction_succ [0, 4, 0, 0] [0, 8, 8, 12] 2 3 0
  norm_num [cost_zero_left, cost_zero_right, min_def, mc_0_0, cA_3_1] at e
  exact e

theorem dA_4_2 : direction [0, 4, 0, 0] [0, 8, 8, 12] 2 4 2 = 2 := by
  have e := direction_succ [0, 4, 0, 0] [0, 8, 8, 12] 2 3 1
  norm_num [cost_zero_left, cost_zero_right, min_def, mc_0_8, cA_3_1, cA_3_2, cA_4_1] at e
  exact e

theorem dA_4_3 : direction [0, 4, 0, 0] [0, 8, 8, 12] 2 4 3 = 3 := by
  have e := direction_succ [0, 4, 0, 0] [0, 8, 8, 12] 2 3 2
  norm_num [cost_zero_left, cost_zero_right, min_def, mc_0_8, cA_3_2, cA_3_3, cA_4_2] at e
  exact e

theorem dA_4_4 : direction [0, 4, 0, 0] [0, 8, 8, 12] 2 4 4 = 3 := by
  have e := direction_succ [0, 4, 0, 0] [0, 8, 8, 12] 2 3 3
  norm_num [cost_zero_left, cost_zero_right, min_def, mc_0_12, cA_3_3, cA_3_4, cA_4_3] at e
  exact e

theorem pairsA : rowPairs [0, 4, 0, 0] [0, 8, 8, 12] 2 = [(2, 2), (1, 1)] := by
  norm_num [rowPairs, tracebackFuel, dA_1_1, dA_1_2, dA_1_3, dA_1_4, dA_2_1, dA_2_2, dA_2_3, dA_2_4, dA_3_1, dA_3_2, dA_3_3, dA_3_4, dA_4_1, dA_4_2, dA_4_3, dA_4_4]

theorem finalA : tbFinal (direction [0, 4, 0, 0] [0, 8, 8, 12] 2) 8 4 4 = (0, 0) := by
  norm_num [tbFinal, dA_1_1, dA_1_2, dA_1_3, dA_1_4, dA_2_1, dA_2_2, dA_2_3, dA_2_4, dA_3_1, dA_3_2, dA_3_3, dA_3_4, dA_4_1, dA_4_2, dA_4_3, dA_4_4]

theorem cB_1_1 : cost [0, 8, 8, 12] [0, 4, 0, 0] 2 1 1 = 0 := by
  have e := cost_succ [0, 8, 8, 12] [0, 4, 0, 0] 2 0 0
  norm_num [cost_zero_left, cost_zero_right, min_def, mc_0_0] at e
  exact e

theorem cB_1_2 : cost [0, 8, 8, 12] [0, 4, 0, 0] 2 1 2 = 2 := by
  have e := cost_succ [0, 8, 8, 12] [0, 4, 0, 0] 2 0 1
  norm_num [cost_zero_left, cost_zero_right, min_def, mc_0_4, cB_1_1] at e
  exact e

theorem cB_1_3 : cost [0, 8, 8, 12] [0, 4, 0, 0] 2 1 3 = 4 := by
  have e := cost_succ [0, 8, 8, 12] [0, 4, 0, 0] 2 0 2
  norm_num [cost_zero_left, cost_zero_right, min_def, mc_0_0, cB_1_2] at e
  exact e

theorem cB_1_4 : cost [0, 8, 8, 12] [0, 4, 0, 0] 2 1 4 = 6 := by
  have e := cost_succ [0, 8, 8, 12] [0, 4, 0, 0] 2 0 3
  norm_num [cost_zero_left, cost_zero_right, min_def, mc_0_0, cB_1_3] at e
  exact e

theorem cB_2_1 : cost [0, 8, 8, 12] [0, 4, 0, 0] 2 2 1 = 2 := by
  have e := cost_succ [0, 8, 8, 12] [0, 4, 0, 0] 2 1 0
  norm_num [cost_zero_left, cost_zero_right, min_def, mc_8_0, cB_1_1] at e
  exact e

theorem cB_2_2 : cost [0, 8, 8, 12] [0, 4, 0, 0] 2 2 2 = 1 := by
  have e := cost_succ [0, 8, 8, 12] [0, 4, 0, 0] 2 1 1
  norm_num [cost_zero_left, cost_zero_right, min_def, mc_8_4, cB_1_1, cB_1_2, cB_2_1] at e
  exact e

theorem cB_2_3 : cost [0, 8, 8, 12] [0, 4, 0, 0] 2 2 3 = 3 := by
  have e := cost_succ [0, 8, 8, 12] [0, 4, 0, 0] 2 1 2
  norm_num [cost_zero_left, cost_zero_right, min_def, mc_8_0, cB_1_2, cB_1_3, cB_2_2] at e
  exact e

theorem cB_2_4 : cost [0, 8, 8, 12] [0, 4, 0, 0] 2 2 4 = 5 := by
  have e := cost_succ [0, 8, 8, 12] [0, 4, 0, 0] 2 1 3
  norm_num [cost_zero_left, cost_zero_right, min_def, mc_8_0, cB_1_3, cB_1_4, cB_2_3] at e
  exact e

theorem cB_3_1 : cost [0, 8, 8, 12] [0, 4, 0, 0] 2 3 1 = 4 := by
  have e := cost_succ [0, 8, 8, 12] [0, 4, 0, 0] 2 2 0
  norm_num [cost_zero_left, cost_zero_right, min_def, mc_8_0, cB_2_1] at e
  exact e

theorem cB_3_2 : cost [0, 8, 8, 12] [0, 4, 0, 0] 2 3 2 = 3 := by
  have e := cost_succ [0, 8, 8, 12] [0, 4, 0, 0] 2 2 1
  norm_num [cost_zero_left, cost_zero_right, min_def, mc_8_4, cB_2_1, cB_2_2, cB_3_1] at e
  exact e

theorem cB_3_3 : cost [0, 8, 8, 12] [0, 4, 0, 0] 2 3 3 = 5 := by
  have e := cost_succ [0, 8, 8, 12] [0, 4, 0, 0] 2 2 2
  norm_num [cost_zero_left, cost_zero_right, min_def, mc_8_0, cB_2_2, cB_2_3, cB_3_2] at e
  exact e

theorem cB_3_4 : cost [0, 8, 8, 12] [0, 4, 0, 0] 2 3 4 = 7 := by
  have e := cost_succ [0, 8, 8, 12] [0, 4, 0, 0] 2 2 3
  norm_num [cost_zero_left, cost_zero_right, min_def, mc_8_0, cB_2_3, cB_2_4, cB_3_3] at e
  exact e

theorem cB_4_1 : cost [0, 8, 8, 12] [0, 4, 0, 0] 2 4 1 = 6 := by
  have e := cost_succ [0, 8, 8, 12] [0, 4, 0, 0] 2 3 0
  norm_num [cost_zero_left, cost_zero_right, min_def, mc_12_0, cB_3_1] at e
  exact e

theorem cB_4_2 : cost [0, 8, 8, 12] [0, 4, 0, 0] 2 4 2 = 5 := by
  have e := cost_succ [0, 8, 8, 12] [0, 4, 0, 0] 2 3 1
  norm_num [cost_zero_left, cost_zero_right, min_def, mc_12_4, cB_3_1, cB_3_2, cB_4_1] at e
  exact e

theorem cB_4_3 : cost [0, 8, 8, 12] [0, 4, 0, 0] 2 4 3 = 7 := by
  have e := cost_succ [0, 8, 8, 12] [0, 4, 0, 0] 2 3 2
  norm_num [cost_zero_left, cost_zero_right, min_def, mc_12_0, cB_3_2, cB_3_3, cB_4_2] at e
  exact e

theorem cB_4_4 : cost [0, 8, 8, 12] [0, 4, 0, 0] 2 4 4 = 9 := by
  have e := cost_succ [0, 8, 8, 12] [0, 4, 0, 0] 2 3 3
  norm_num [cost_zero_left, cost_zero_right, min_def, mc_12_0, cB_3_3, cB_3_4, cB_4_3] at e
  exact e

theorem dB_1_1 : direction [0, 8, 8, 12] [0, 4, 0, 0] 2 1 1 = 1 := by
  have e := direction_succ [0, 8, 8, 12] [0, 4, 0, 0] 2 0 0
  norm_num [cost_zero_left, cost_zero_right, min_def, mc_0_0] at e
  exact e

theorem dB_1_2 : direction [0, 8, 8, 12] [0, 4, 0, 0] 2 1 2 = 3 := by
  have e := direction_succ [0, 8, 8, 12] [0, 4, 0, 0] 2 0 1
  norm_num [cost_zero_left, cost_zero_right, min_def, mc_0_4, cB_1_1] at e
  exact e

theorem dB_1_3 : direction [0, 8, 8, 12] [0, 4, 0, 0] 2 1 3 = 3 := by
  have e := direction_succ [0, 8, 8, 12] [0, 4, 0, 0] 2 0 2
  norm_num [cost_zero_left, cost_zero_right, min_def, mc_0_0, cB_1_2] at e
  exact e

theorem dB_1_4 : direction [0, 8, 8, 12] [0, 4, 0, 0] 2 1 4 = 3 := by
  have e := direction_succ [0, 8, 8, 12] [0, 4, 0, 0] 2 0 3
  norm_num [cost_zero_left, cost_zero_right, min_def, mc_0_0, cB_1_3] at e
  exact e

theorem dB_2_1 : direction [0, 8, 8, 12] [0, 4, 0, 0] 2 2 1 = 2 := by
  have e := direction_succ [0, 8, 8, 12] [0, 4, 0, 0] 2 1 0
  norm_num [cost_zero_left, cost_zero_right, min_def, mc_8_0, cB_1_1] at e
  exact e

theorem dB_2_2 : direction [0, 8, 8, 12] [0, 4, 0, 0] 2 2 2 = 1 := by
  have e := direction_succ [0, 8, 8, 12] [0, 4, 0, 0] 2 1 1
  norm_num [cost_zero_left, cost_zero_right, min_def, mc_8_4, cB_1_1, cB_1_2, cB_2_1] at e
  exact e

theorem dB_2_3 : direction [0, 8, 8, 12] [0, 4, 0, 0] 2 2 3 = 3 := by
  have e := direction_succ [0, 8, 8, 12] [0, 4, 0, 0] 2 1 2
  norm_num [cost_zero_left, cost_zero_right, min_def, mc_8_0, cB_1_2, cB_1_3, cB_2_2] at e
  exact e

theorem dB_2_4 : direction [0, 8, 8, 12] [0, 4, 0, 0] 2 2 4 = 3 := by
  have e := direction_succ [0, 8, 8, 12] [0, 4, 0, 0] 2 1 3
  norm_num [cost_zero_left, cost_zero_right, min_def, mc_8_0, cB_1_3, cB_1_4, cB_2_3] at e
  exact e

theorem dB_3_1 : direction [0, 8, 8, 12] [0, 4, 0, 0] 2 3 1 = 2 := by
  have e := direction_succ [0, 8, 8, 12] [0, 4, 0, 0] 2 2 0
  norm_num [cost_zero_left, cost_zero_right, min_def, mc_8_0, cB_2_1] at e
  exact e

theorem dB_3_2 : direction [0, 8, 8, 12] [0, 4, 0, 0] 2 3 2 = 1 := by
  have e := direction_succ [0, 8, 8, 12] [0, 4, 0, 0] 2 2 1
  norm_num [cost_zero_left, cost_zero_right, min_def, mc_8_4, cB_2_1, cB_2_2, cB_3_1] at e
  exact e

theorem dB_3_3 : direction [0, 8, 8, 12] [0, 4, 0, 0] 2 3 3 = 3 := by
  have e := direction_succ [0, 8, 8, 12] [0, 4, 0, 0] 2 2 2
  norm_num [cost_zero_left, cost_zero_right, min_def, mc_8_0, cB_2_2, cB_2_3, cB_3_2] at e
  exact e

theorem dB_3_4 : direction [0, 8, 8, 12] [0, 4, 0, 0] 2 3 4 = 3 := by
  have e := direction_succ [0, 8, 8, 12] [0, 4, 0, 0] 2 2 3
  norm_num [cost_zero_left, cost_zero_right, min_def, mc_8_0, cB_2_3, cB_2_4, cB_3_3] at e
  exact e

theorem dB_4_1 : direction [0, 8, 8, 12] [0, 4, 0, 0] 2 4 1 = 2 := by
  have e := direction_succ [0, 8, 8, 12] [0, 4, 0, 0] 2 3 0
  norm_num [cost_zero_left, cost_zero_right, min_def, mc_12_0, cB_3_1] at e
  exact e

theorem dB_4_2 : direction [0, 8, 8, 12] [0, 4, 0, 0] 2 4 2 = 2 := by
  have e := direction_succ [0, 8, 8, 12] [0, 4, 0, 0] 2 3 1
  norm_num [cost_zero_left, cost_zero_right, min_def, mc_12_4, cB_3_1, cB_3_2, cB_4_1] at e
  exact e

theorem dB_4_3 : direction [0, 8, 8, 12] [0, 4, 0, 0] 2 4 3 = 3 := by
  have e := direction_succ [0, 8, 8, 12] [0, 4, 0, 0] 2 3 2
  norm_num [cost_zero_left, cost_zero_right, min_def, mc_12_0, cB_3_2, cB_3_3, cB_4_2] at e
  exact e

theorem dB_4_4 : direction [0, 8, 8, 12] [0, 4, 0, 0] 2 4 4 = 3 := by
  have e := direction_succ [0, 8, 8, 12] [0, 4, 0, 0] 2 3 3
  norm_num [cost_zero_left, cost_zero_right, min_def, mc_12_0, cB_3_3, cB_3_4, cB_4_3] at e
  exact e

theorem pairsB : rowPairs [0, 8, 8, 12] [0, 4, 0, 0] 2 = [(3, 2), (1, 1)] := by
  norm_num [rowPairs, tracebackFuel, dB_1_1, dB_1_2, dB_1_3, dB_1_4, dB_2_1, dB_2_2, dB_2_3, dB_2_4, dB_3_1, dB_3_2, dB_3_3, dB_3_4, dB_4_1, dB_4_2, dB_4_3, dB_4_4]

theorem finalB : tbFinal (direction [0, 8, 8, 12] [0, 4, 0, 0] 2) 8 4 4 = (0, 0) := by
  norm_num [tbFinal, dB_1_1, dB_1_2, dB_1_3, dB_1_4, dB_2_1, dB_2_2, dB_2_3, dB_2_4, dB_3_1, dB_3_2, dB_3_3, dB_3_4, dB_4_1, dB_4_2, dB_4_3, dB_4_4]


theorem ratToByte_eq_intFloor (q : ℚ) : ratToByte q = (⌊q⌋).toNat := rfl

theorem rb_236 : ratToByte (5440 / 23) = 236 := by
  rw [ratToByte_eq_intFloor]
  have h : ⌊(5440 / 23 : ℚ)⌋ = 236 := by
    rw [Int.floor_eq_iff]
    constructor <;> norm_num
  rw [h]
  rfl

theorem mapsA :
    createDisparityMap [[0, 4, 0, 0]] [[0, 8, 8, 12]] 2 =
      (some [[0, 255, 255, 0]], some [[0, 255, 255, 0]]) := by
  norm_num [createDisparityMap, finalizeMap, mapMax, listMax, leftMapVal, rightMapVal,
    writeRow, writeAt, disparity, List.range_succ, min_def, max_def, pairsA,
    ratToByte_zero, ratToByte_255, rb_236]

theorem mapsB :
    createDisparityMap [[0, 8, 8, 12]] [[0, 4, 0, 0]] 2 =
      (some [[0, 236, 0, 255]], some [[0, 236, 255, 0]]) := by
  norm_num [createDisparityMap, finalizeMap, mapMax, listMax, leftMapVal, rightMapVal,
    writeRow, writeAt, disparity, List.range_succ, min_def, max_def, pairsB,
    ratToByte_zero, ratToByte_255, rb_236]


theorem getD_all_lt_256 {L : List ℕ} (hL : ∀ z ∈ L, z < 256) (i : ℕ) :
    L.getD i 0 < 256 := by
  by_cases h : i < L.length
  · exact getD_lt_256 hL h
  · rw [List.getD_eq_default _ _ (by omega)]
    norm_num

theorem cost_symm (L R : List ℕ) (occ : ℚ) (hL : ∀ z ∈ L, z < 256)
    (hR : ∀ z ∈ R, z < 256) : ∀ i j, cost R L occ i j = cost L R occ j i := by
  intro i
  induction i with
  | zero => intro j; rw [cost_zero_right, cost_zero_left]
  | succ i ih =>
    intro j
    induction j with
    | zero => rw [cost_zero_left, cost_zero_right]
    | succ j ihj =>
      rw [cost_succ, cost_succ, ih j, ih (j + 1), ihj,
        matchingCost_comm (getD_all_lt_256 hR i) (getD_all_lt_256 hL j)]
      rw [min_assoc, min_comm (cost L R occ (j + 1) i + occ) (cost L R occ j (i + 1) + occ),
        ← min_assoc]

theorem direction_cases (L R : List ℕ) (occ : ℚ) (i j : ℕ) :
    direction L R occ (i + 1) (j + 1) = 1 ∨ direction L R occ (i + 1) (j + 1) = 2 ∨
      direction L R occ (i + 1) (j + 1) = 3 := by
  rw [direction_succ]
  split_ifs with h3 h1 h2
  · exact Or.inr (Or.inr rfl)
  · exact Or.inl rfl
  · exact Or.inr (Or.inl rfl)
  · rcases min3_choice (cost L R occ i j + matchingCost (L.getD i 0) (R.getD j 0))
      (cost L R occ i (j + 1) + occ) (cost L R occ (i + 1) j + occ) with h | h | h
    · exact absurd h h1
    · exact absurd h h2
    · exact absurd h h3

theorem direction_symm (L R : List ℕ) (occ : ℚ) (hL : ∀ z ∈ L, z < 256)
    (hR : ∀ z ∈ R, z < 256) (i j : ℕ)
    (hu : uniqueMin3 (cost L R occ j i + matchingCost (L.getD j 0) (R.getD i 0))
      (cost L R occ j (i + 1) + occ) (cost L R occ (j + 1) i + occ)) :
    direction R L occ (i + 1) (j + 1) = mirrorTag (direction L R occ (j + 1) (i + 1)) := by
  have e1 : cost R L occ i j = cost L R occ j i := cost_symm L R occ hL hR i j
  have e2 : cost R L occ i (j + 1) = cost L R occ (j + 1) i := cost_symm L R occ hL hR i (j + 1)
  have e3 : cost R L occ (i + 1) j = cost L R occ j (i + 1) := cost_symm L R occ hL hR (i + 1) j
  have emc : matchingCost (R.getD i 0) (L.getD j 0) = matchingCost (L.getD j 0) (R.getD i 0) :=
    matchingCost_comm (getD_all_lt_256 hR i) (getD_all_lt_256 hL j)
  rw [direction_succ, direction_succ, e1, e2, e3, emc]
  set A := cost L R occ j i + matchingCost (L.getD j 0) (R.getD i 0) with hA
  set B := cost L R occ j (i + 1) + occ with hB
  set Cv := cost L R occ (j + 1) i + occ with hCv
  rcases hu with ⟨h1, h2⟩ | ⟨h1, h2⟩ | ⟨h1, h2⟩
  · have m1 : min (min A Cv) B = A := by rw [min_eq_left (le_of_lt h2), min_eq_left (le_of_lt h1)]
    have m2 : min (min A B) Cv = A := by rw [min_eq_left (le_of_lt h1), min_eq_left (le_of_lt h2)]
    rw [m1, m2, if_neg (ne_of_lt h1), if_pos rfl, if_neg (ne_of_lt h2), if_pos rfl]
    rfl
  · have m1 : min (min A Cv) B = B :=
      min_eq_right (le_min (le_of_lt h1) (le_of_lt h2))
    have m2 : min (min A B) Cv = B := by
      rw [min_eq_right (le_of_lt h1), min_eq_left (le_of_lt h2)]
    rw [m1, m2, if_pos rfl, if_neg (ne_of_lt h2), if_neg (ne_of_lt h1), if_pos rfl]
    rfl
  · have m1 : min (min A Cv) B = Cv := by
      rw [min_eq_right (le_of_lt h1), min_eq_left (le_of_lt h2)]
    have m2 : min (min A B) Cv = Cv :=
      min_eq_right (le_min (le_of_lt h1) (le_of_lt h2))
    rw [m1, m2, if_neg (ne_of_lt h2), if_neg (ne_of_lt h1), if_pos rfl, if_pos rfl]
    rfl

theorem traceback_symm (L R : List ℕ) (occ : ℚ) (hL : ∀ z ∈ L, z < 256)
    (hR : ∀ z ∈ R, z < 256) (hu : noTieRow L R occ) :
    ∀ f i j, i ≤ R.length → j ≤ L.length →
      tracebackFuel (direction R L occ) f i j =
        (tracebackFuel (direction L R occ) f j i).map (List.map Prod.swap) := by
  intro f
  induction f with
  | zero =>
    intro i j _ _
    match i, j with
    | 0, 0 => rfl
    | 0, j + 1 => rfl
    | i + 1, 0 => rfl
    | i + 1, j + 1 => rfl
  | succ f ih =>
    intro i j hi hj
    match i, j with
    | 0, 0 => rfl
    | 0, j + 1 => rfl
    | i + 1, 0 => rfl
    | i + 1, j + 1 =>
      have hcell := hu j (by omega) i (by omega)
      have hdir := direction_symm L R occ hL hR i j hcell
      rcases direction_cases L R occ j i with h | h | h
      · have hs : direction R L occ (i + 1) (j + 1) = 1 := by rw [hdir, h]; rfl
        have e1 : tracebackFuel (direction R L occ) (f + 1) (i + 1) (j + 1) =
            (tracebackFuel (direction R L occ) f i j).map (fun l => (i + 1, j + 1) :: l) := by
          simp [tracebackFuel, hs]
        have e2 : tracebackFuel (direction L R occ) (f + 1) (j + 1) (i + 1) =
            (tracebackFuel (direction L R occ) f j i).map (fun l => (j + 1, i + 1) :: l) := by
          simp [tracebackFuel, h]
        rw [e1, e2, ih i j (by omega) (by omega)]
        cases tracebackFuel (direction L R occ) f j i <;> rfl
      · have hs : direction R L occ (i + 1) (j + 1) = 3 := by rw [hdir, h]; rfl
        have e1 : tracebackFuel (direction R L occ) (f + 1) (i + 1) (j + 1) =
            tracebackFuel (direction R L occ) f (i + 1) j := by
          simp [tracebackFuel, hs]
        have e2 : tracebackFuel (direction L R occ) (f + 1) (j + 1) (i + 1) =
            tracebackFuel (direction L R occ) f j (i + 1) := by
          simp [tracebackFuel, h]
        rw [e1, e2, ih (i + 1) j hi (by omega)]
      · have hs : direction R L occ (i + 1) (j + 1) = 2 := by rw [hdir, h]; rfl
        have e1 : tracebackFuel (direction R L occ) (f + 1) (i + 1) (j + 1) =
            tracebackFuel (direction R L occ) f i (j + 1) := by
          simp [tracebackFuel, hs]
        have e2 : tracebackFuel (direction L R occ) (f + 1) (j + 1) (i + 1) =
            tracebackFuel (direction L R occ) f (j + 1) i := by
          simp [tracebackFuel, h]
        rw [e1, e2, ih i (j + 1) (by omega) hj]

theorem rowPairs_symm (L R : List ℕ) (occ : ℚ) (hL : ∀ z ∈ L, z < 256)
    (hR : ∀ z ∈ R, z < 256) (hu : noTieRow L R occ) (hLen : R.length = L.length) :
    rowPairs R L occ = (rowPairs L R occ).map Prod.swap := by
  have htags : ∀ a b, 1 ≤ a → a ≤ L.length → 1 ≤ b → b ≤ L.length →
      direction L R occ a b = 1 ∨ direction L R occ a b = 2 ∨ direction L R occ a b = 3 := by
    intro a b ha _ hb _
    obtain ⟨a', rfl⟩ : ∃ a', a = a' + 1 := ⟨a - 1, by omega⟩
    obtain ⟨b', rfl⟩ : ∃ b', b = b' + 1 := ⟨b - 1, by omega⟩
    exact direction_cases L R occ a' b'
  obtain ⟨l, hl, _, _, _⟩ := traceback_spec (direction L R occ) L.length htags
    (L.length + L.length) L.length L.length (by omega) le_rfl le_rfl
  rw [rowPairs, rowPairs, hLen,
    traceback_symm L R occ hL hR hu (L.length + L.length) L.length L.length
      (by rw [hLen]) le_rfl, hl]
  rfl

theorem disparity_swap (p : ℕ × ℕ) : disparity (Prod.swap p) = disparity p := by
  rcases p with ⟨a, b⟩
  simp only [disparity, Prod.swap, Prod.fst, Prod.snd]
  rw [← neg_sub (a : ℤ) (b : ℤ), Int.natAbs_neg]

theorem foldl_write_swap (sel1 sel2 : ℕ × ℕ → ℕ) (hsel : ∀ p : ℕ × ℕ, sel1 (Prod.swap p) = sel2 p) :
    ∀ (ps : List (ℕ × ℕ)) (f : ℕ → ℚ),
      List.foldl (fun g p => writeAt g (sel1 p) (disparity p)) f (ps.map Prod.swap) =
        List.foldl (fun g p => writeAt g (sel2 p) (disparity p)) f ps := by
  intro ps
  induction ps with
  | nil => intro f; rfl
  | cons p ps ih =>
    intro f
    show List.foldl _ (writeAt f (sel1 (Prod.swap p)) (disparity (Prod.swap p)))
        (ps.map Prod.swap) = List.foldl _ (writeAt f (sel2 p) (disparity p)) ps
    rw [hsel, disparity_swap]
    exact ih _

theorem writeRow_swap_fst (ps : List (ℕ × ℕ)) :
    writeRow Prod.fst (ps.map Prod.swap) = writeRow Prod.snd ps :=
  foldl_write_swap Prod.fst Prod.snd (fun _ => rfl) ps _

theorem writeRow_swap_snd (ps : List (ℕ × ℕ)) :
    writeRow Prod.snd (ps.map Prod.swap) = writeRow Prod.fst ps :=
  foldl_write_swap Prod.snd Prod.fst (fun _ => rfl) ps _


/-- C10 (amended): for equal-shaped 8-bit inputs, positive occlusion cost,
and no exact cost ties (at every interior cell of every row the minimum of
the three candidates is attained by exactly one of them), swapping the two
input images swaps the two output disparity maps. -/
theorem C10_amended_swap_symmetry_no_ties (imgL imgR : List (List ℕ)) (occ : ℚ)
    (hocc : 0 < occ) (hh : imgR.length = imgL.length)
    (hw : ∀ r < imgL.length, (imgR.getD r []).length = (imgL.getD r []).length)
    (hpixL : ∀ r < imgL.length, ∀ z ∈ imgL.getD r [], z < 256)
    (hpixR : ∀ r < imgL.length, ∀ z ∈ imgR.getD r [], z < 256)
    (hties : ∀ r < imgL.length, noTieRow (imgL.getD r []) (imgR.getD r []) occ) :
    createDisparityMap imgR imgL occ =
      ((createDisparityMap imgL imgR occ).2, (createDisparityMap imgL imgR occ).1) := by
  have hmaps1 : leftMapVal imgR imgL occ = rightMapVal imgL imgR occ := by
    funext r
    by_cases hr : r < imgL.length
    · show writeRow Prod.fst (rowPairs (imgR.getD r []) (imgL.getD r []) occ) =
        writeRow Prod.snd (rowPairs (imgL.getD r []) (imgR.getD r []) occ)
      rw [rowPairs_symm _ _ occ (hpixL r hr) (hpixR r hr) (hties r hr) (hw r hr),
        writeRow_swap_fst]
    · show writeRow Prod.fst (rowPairs (imgR.getD r []) (imgL.getD r []) occ) =
        writeRow Prod.snd (rowPairs (imgL.getD r []) (imgR.getD r []) occ)
      have h1 : imgL.getD r [] = [] := List.getD_eq_default _ _ (by omega)
      have h2 : imgR.getD r [] = [] := List.getD_eq_default _ _ (by omega)
      rw [h1, h2]
      rfl
  have hmaps2 : rightMapVal imgR imgL occ = leftMapVal imgL imgR occ := by
    funext r
    by_cases hr : r < imgL.length
    · show writeRow Prod.snd (rowPairs (imgR.getD r []) (imgL.getD r []) occ) =
        writeRow Prod.fst (rowPairs (imgL.getD r []) (imgR.getD r []) occ)
      rw [rowPairs_symm _ _ occ (hpixL r hr) (hpixR r hr) (hties r hr) (hw r hr),
        writeRow_swap_snd]
    · show writeRow Prod.snd (rowPairs (imgR.getD r []) (imgL.getD r []) occ) =
        writeRow Prod.fst (rowPairs (imgL.getD r []) (imgR.getD r []) occ)
      have h1 : imgL.getD r [] = [] := List.getD_eq_default _ _ (by omega)
      have h2 : imgR.getD r [] = [] := List.getD_eq_default _ _ (by omega)
      rw [h1, h2]
      rfl
  rcases Nat.eq_zero_or_pos imgL.length with h0 | hpos
  · have hL0 : imgL = [] := List.length_eq_zero.mp h0
    have hR0 : imgR = [] := List.length_eq_zero.mp (by omega)
    subst hL0
    subst hR0
    rfl
  · have hw0 : (imgR.getD 0 []).length = (imgL.getD 0 []).length := hw 0 hpos
    show (finalizeMap (leftMapVal imgR imgL occ) imgR.length (imgR.getD 0 []).length,
      finalizeMap (rightMapVal imgR imgL occ) imgR.length (imgR.getD 0 []).length) = _
    rw [hmaps1, hmaps2, hh, hw0]
    rfl

theorem C10_witness :
    ((0 : ℚ) < 4 ∧ ([[10, 60]] : List (List ℕ)).length = [[0, 50]].length ∧
      (∀ r < ([[0, 50]] : List (List ℕ)).length, noTieRow ([[0, 50]].getD r [])
        (([[10, 60]] : List (List ℕ)).getD r []) 4)) ∧
    createDisparityMap [[10, 60]] [[0, 50]] 4 =
      ((createDisparityMap [[0, 50]] [[10, 60]] 4).2,
       (createDisparityMap [[0, 50]] [[10, 60]] 4).1) := by
  have hties : ∀ r < ([[0, 50]] : List (List ℕ)).length,
      noTieRow ([[0, 50]].getD r []) (([[10, 60]] : List (List ℕ)).getD r []) 4 := by
    intro r hr
    have hr0 : r = 0 := by
      have : r < 1 := by simpa using hr
      omega
    subst hr0
    intro i hi j hj
    have hi1 : i < 2 := by simpa using hi
    have hj1 : j < 2 := by simpa using hj
    interval_cases i <;> interval_cases j <;>
      norm_num [uniqueMin3, cost, costRow, nextRow, matchingCost, wsub, word, variance,
        min_def]
  refine ⟨⟨by norm_num, rfl, hties⟩, ?_⟩
  exact C10_amended_swap_symmetry_no_ties [[0, 50]] [[10, 60]] 4 (by norm_num) rfl
    (by intro r hr
        have hr0 : r = 0 := by
          have : r < 1 := by simpa using hr
          omega
        subst hr0
        rfl)
    (by intro r hr
        have hr0 : r = 0 := by
          have : r < 1 := by simpa using hr
          omega
        subst hr0
        decide)
    (by intro r hr
        have hr0 : r = 0 := by
          have : r < 1 := by simpa using hr
          omega
        subst hr0
        decide)
    hties

/-- C10 (counterexample to the claim as stated): on the single-row pair
L = [0, 4, 0, 0], R = [0, 8, 8, 12] with occlusionCost 2, both traversals
finish at (0, 0) (no trailing occlusion) and every write is in bounds, yet
the swapped run's outputs are not the original outputs with roles swapped:
an exact cost tie makes the two runs choose different optimal alignments. -/
theorem C10_counterexample_swap_asymmetric :
    createDisparityMap [[0, 4, 0, 0]] [[0, 8, 8, 12]] 2 =
      (some [[0, 255, 255, 0]], some [[0, 255, 255, 0]]) ∧
    createDisparityMap [[0, 8, 8, 12]] [[0, 4, 0, 0]] 2 =
      (some [[0, 236, 0, 255]], some [[0, 236, 255, 0]]) ∧
    tbFinal (direction [0, 4, 0, 0] [0, 8, 8, 12] 2) 8 4 4 = (0, 0) ∧
    tbFinal (direction [0, 8, 8, 12] [0, 4, 0, 0] 2) 8 4 4 = (0, 0) ∧
    (∀ p ∈ rowPairs [0, 4, 0, 0] [0, 8, 8, 12] 2, p.1 < 4 ∧ p.2 < 4) ∧
    (∀ p ∈ rowPairs [0, 8, 8, 12] [0, 4, 0, 0] 2, p.1 < 4 ∧ p.2 < 4) ∧
    (createDisparityMap [[0, 8, 8, 12]] [[0, 4, 0, 0]] 2).1 ≠
      (createDisparityMap [[0, 4, 0, 0]] [[0, 8, 8, 12]] 2).2 ∧
    (createDisparityMap [[0, 8, 8, 12]] [[0, 4, 0, 0]] 2).2 ≠
      (createDisparityMap [[0, 4, 0, 0]] [[0, 8, 8, 12]] 2).1 := by
  refine ⟨mapsA, mapsB, finalA, finalB, ?_, ?_, ?_, ?_⟩
  · rw [pairsA]
    decide
  · rw [pairsB]
    decide
  · rw [mapsA, mapsB]
    decide
  · rw [mapsA, mapsB]
    decide

end Stereo
